import Mathlib

/-!
# Verification of the Keikaku interpreter

This development gives a shallow embedding of the Keikaku tree-walking
interpreter (`src/compiler/interpreter.c`, driven by `src/compiler/main.c`)
and proves properties of its value model, environment operations, arithmetic,
slicing, match construct, and the generator (sequence) machinery.

The C interpreter performs every numeric binary operation by first converting
both operands to `double` (IEEE-754 binary64) and, for the integer-valued
operators, casting the `double` result back to `int64_t` (`eval_binary`,
interpreter.c:1551-1601).  To reason about this exactly we model binary64
values as rational numbers together with the round-to-nearest-ties-to-even
rounding function at 53 significant bits.  All quantities handled by the
claims stay inside the normal (non-subnormal, non-overflowing) range of
binary64, where this model agrees exactly with IEEE-754 arithmetic.
-/

attribute [local semireducible] Rat.add Rat.mul Rat.inv Rat.sub

set_option maxRecDepth 40000

namespace Keikaku

/-! ## Exact model of binary64 rounding over ℚ -/

/-- Binade finder: for positive `q` (and enough fuel) returns the unique `e`
with `2^e ≤ q < 2^(e+1)`.  Fuel-based structural recursion so that the kernel
can evaluate it. -/
def findExp : Nat → ℚ → ℤ
  | 0, _ => 0
  | fuel+1, q =>
    if q < 1 then findExp fuel (2*q) - 1
    else if q < 2 then 0
    else findExp fuel (q/2) + 1

/-- Round a rational to the nearest integer, ties to even (the IEEE-754
default rounding used by C `double` arithmetic). -/
def rne (x : ℚ) : ℤ :=
  let f := ⌊x⌋
  let r := x - f
  if r < 1/2 then f
  else if 1/2 < r then f + 1
  else if f % 2 = 0 then f else f + 1

/-- Round a rational to the nearest binary64 value (normal range).
`s = e - 52` is the exponent of one unit in the last place. -/
def round64 (q : ℚ) : ℚ :=
  if q = 0 then 0
  else
    let e := findExp 1200 |q|
    let s := e - 52
    (rne (q / 2^s) : ℚ) * 2^s

/-- Truncation toward zero of a rational, as performed by a C cast from
`double` to an integer type. -/
def rtrunc (q : ℚ) : ℤ :=
  if 0 ≤ q then ⌊q⌋ else ⌈q⌉

/-- C cast `(int64_t)` applied to a `double`: truncates toward zero; the
behavior is undefined (modeled as `none`) when the truncated value does not
fit in `int64_t`. -/
def i64cast (q : ℚ) : Option ℤ :=
  let n := rtrunc q
  if -(2^63) ≤ n ∧ n < 2^63 then some n else none

/-! ### Correctness of `findExp` -/

theorem two_zpow_pos (e : ℤ) : (0:ℚ) < 2 ^ e := zpow_pos (by norm_num) e

theorem two_zpow_succ (e : ℤ) : (2:ℚ) ^ (e + 1) = 2 ^ e * 2 :=
  zpow_add_one₀ (by norm_num) e

theorem two_zpow_lt_iff {m n : ℤ} : (2:ℚ) ^ m < 2 ^ n ↔ m < n :=
  zpow_lt_zpow_iff_right₀ (by norm_num)

theorem findExp_eq : ∀ (fuel : Nat) (q : ℚ) (e : ℤ),
    (2:ℚ) ^ e ≤ q → q < 2 ^ (e + 1) → e.natAbs < fuel → findExp fuel q = e := by
  intro fuel
  induction fuel with
  | zero => intro q e _ _ h; omega
  | succ fuel ih =>
    intro q e hlo hhi _
    have hq : 0 < q := lt_of_lt_of_le (two_zpow_pos e) hlo
    by_cases h1 : q < 1
    · have he : e < 0 := by
        have : (2:ℚ) ^ e < 2 ^ (0:ℤ) := by
          calc (2:ℚ) ^ e ≤ q := hlo
          _ < 1 := h1
          _ = 2 ^ (0:ℤ) := by norm_num
        exact_mod_cast two_zpow_lt_iff.mp this
      have hfa : (e+1).natAbs < fuel := by
        rename_i hfuel
        omega
      have hlo2 : (2:ℚ) ^ (e+1) ≤ 2*q := by
        rw [two_zpow_succ]; linarith
      have hhi2 : 2*q < 2 ^ (e+1+1) := by
        rw [two_zpow_succ (e+1)]; linarith
      simp only [findExp, if_pos h1]
      rw [ih (2*q) (e+1) hlo2 hhi2 hfa]; ring
    · push_neg at h1
      by_cases h2 : q < 2
      · have he : e = 0 := by
          have hlt : e < 1 := by
            have h2' : q < (2:ℚ) ^ (1:ℤ) := by rw [zpow_one]; exact h2
            have : (2:ℚ) ^ e < 2 ^ (1:ℤ) := lt_of_le_of_lt hlo h2'
            exact_mod_cast two_zpow_lt_iff.mp this
          have hge : 0 < e + 1 := by
            have h1' : (2:ℚ) ^ (0:ℤ) ≤ q := by rw [zpow_zero]; exact h1
            have : (2:ℚ) ^ (0:ℤ) < 2 ^ (e+1) := lt_of_le_of_lt h1' hhi
            exact_mod_cast two_zpow_lt_iff.mp this
          omega
        simp only [findExp, if_neg (not_lt.mpr h1), if_pos h2, he]
      · push_neg at h2
        have he : 1 ≤ e := by
          have h2' : (2:ℚ) ^ (1:ℤ) ≤ q := by rw [zpow_one]; exact h2
          have : (2:ℚ) ^ (1:ℤ) < 2 ^ (e+1) := lt_of_le_of_lt h2' hhi
          have := two_zpow_lt_iff.mp this
          omega
        have hfa : (e-1).natAbs < fuel := by
          rename_i hfuel
          omega
        have hlo2 : (2:ℚ) ^ (e-1) ≤ q/2 := by
          have : (2:ℚ) ^ e = 2 ^ (e-1) * 2 := by
            rw [← two_zpow_succ (e-1)]; ring_nf
          rw [this] at hlo; linarith
        have hhi2 : q/2 < 2 ^ (e-1+1) := by
          have : (2:ℚ) ^ (e+1) = 2 ^ (e-1+1) * 2 := by
            rw [← two_zpow_succ (e-1+1)]; ring_nf
          rw [this] at hhi; linarith
        simp only [findExp, if_neg (not_lt.mpr h1), if_neg (not_lt.mpr h2)]
        rw [ih (q/2) (e-1) hlo2 hhi2 hfa]; ring

/-! ### Basic properties of `rne` -/

theorem rne_intCast (n : ℤ) : rne (n : ℚ) = n := by
  simp [rne]

theorem abs_rne_sub (x : ℚ) : |(rne x : ℚ) - x| ≤ 1/2 := by
  have hf : (⌊x⌋ : ℚ) ≤ x := Int.floor_le x
  have hf1 : x < ⌊x⌋ + 1 := Int.lt_floor_add_one x
  have hc : ((⌊x⌋ + 1 : ℤ) : ℚ) = (⌊x⌋ : ℚ) + 1 := by push_cast; ring
  unfold rne
  by_cases h1 : x - ⌊x⌋ < 1/2
  · simp only [if_pos h1]
    rw [abs_le]; constructor <;> linarith
  · simp only [if_neg h1]
    push_neg at h1
    by_cases h2 : (1:ℚ)/2 < x - ⌊x⌋
    · simp only [if_pos h2]
      rw [abs_le, hc]; constructor <;> linarith
    · simp only [if_neg h2]
      push_neg at h2
      by_cases h3 : ⌊x⌋ % 2 = 0
      · simp only [if_pos h3]
        rw [abs_le]; constructor <;> linarith
      · simp only [if_neg h3]
        rw [abs_le, hc]; constructor <;> linarith

/-! ### Exactness and error bound of `round64` -/

theorem log2_spec (q : ℚ) (hq : q ≠ 0) :
    (2:ℚ) ^ (Int.log 2 |q|) ≤ |q| ∧ |q| < 2 ^ (Int.log 2 |q| + 1) := by
  have hpos : (0:ℚ) < |q| := abs_pos.mpr hq
  constructor
  · have := Int.zpow_log_le_self (R := ℚ) (b := 2) (by norm_num) hpos
    simpa using this
  · have := Int.lt_zpow_succ_log_self (R := ℚ) (b := 2) (by norm_num) |q|
    simpa using this

theorem round64_eq_of_binade (q : ℚ) (hq : q ≠ 0) (E : ℤ)
    (hE : Int.log 2 |q| = E) (hEa : E.natAbs < 1200) :
    round64 q = (rne (q / 2^(E-52)) : ℚ) * 2^(E-52) := by
  obtain ⟨hlo, hhi⟩ := log2_spec q hq
  rw [hE] at hlo hhi
  unfold round64
  rw [if_neg hq, findExp_eq 1200 |q| E hlo hhi hEa]

theorem round64_intCast (n : ℤ) (hn : n.natAbs ≤ 2^53) : round64 (n : ℚ) = n := by
  by_cases h0 : n = 0
  · simp [round64, h0]
  have hq : ((n:ℚ)) ≠ 0 := Int.cast_ne_zero.mpr h0
  set E : ℤ := Int.log 2 |(n:ℚ)| with hEdef
  obtain ⟨hlo, hhi⟩ := log2_spec (n:ℚ) hq
  have habs : |(n:ℚ)| = (n.natAbs : ℚ) := Int.cast_abs.symm.trans Int.cast_natAbs.symm
  have h1 : (1:ℚ) ≤ |(n:ℚ)| := by
    rw [habs]
    exact_mod_cast Nat.one_le_iff_ne_zero.mpr (Int.natAbs_ne_zero.mpr h0)
  have hpos : (0:ℚ) < |(n:ℚ)| := lt_of_lt_of_le one_pos h1
  have hup : |(n:ℚ)| ≤ (2:ℚ)^(53:ℕ) := by
    rw [habs]
    exact_mod_cast hn
  have hE0 : 0 ≤ E := by
    have := (Int.zpow_le_iff_le_log (R := ℚ) (b := 2) (by norm_num)
      (x := 0) hpos).mp (by simpa using h1)
    exact this
  have hE53 : E ≤ 53 := by
    have hlt : |(n:ℚ)| < ((2:ℕ):ℚ)^(54:ℤ) := by
      have h54 : ((2:ℕ):ℚ)^(54:ℤ) = (2:ℚ)^(54:ℕ) := by
        push_cast
        rw [show ((54:ℤ)) = ((54:ℕ):ℤ) from rfl, zpow_natCast]
      rw [h54]
      calc |(n:ℚ)| ≤ (2:ℚ)^(53:ℕ) := hup
      _ < (2:ℚ)^(54:ℕ) := by norm_num
    have := (Int.lt_zpow_iff_log_lt (R := ℚ) (b := 2) (by norm_num) hpos).mp hlt
    omega
  have hEa : E.natAbs < 1200 := by omega
  rw [round64_eq_of_binade (n:ℚ) hq E hEdef.symm hEa]
  by_cases hc : E ≤ 52
  · -- the scaled significand `n * 2^(52-E)` is an integer
    have htn : (((52 - E).toNat : ℤ)) = 52 - E := Int.toNat_of_nonneg (by omega)
    have hcast : ((n * 2^((52-E).toNat) : ℤ):ℚ) = (n:ℚ) / 2^(E-52) := by
      push_cast
      rw [← zpow_natCast (2:ℚ) ((52-E).toNat), htn,
        show (52 - E : ℤ) = -(E-52) by ring, zpow_neg, div_eq_mul_inv]
    rw [← hcast, rne_intCast, hcast]
    exact div_mul_cancel₀ _ (two_zpow_pos (E-52)).ne'
  · -- E = 53; then |n| = 2^53 and n / 2 is still an integer
    have hE : E = 53 := by omega
    have hna : n.natAbs = 2^53 := by
      have hge : (2:ℚ)^(53:ℕ) ≤ (n.natAbs : ℚ) := by
        rw [← habs]
        have h53 : ((2:ℚ))^((53:ℤ)) = (2:ℚ)^(53:ℕ) := by
          rw [show ((53:ℤ)) = ((53:ℕ):ℤ) from rfl, zpow_natCast]
        rw [← h53, ← hE]
        exact hlo
      have : ((2^53 : ℕ) : ℚ) ≤ (n.natAbs : ℚ) := by
        calc ((2^53 : ℕ) : ℚ) = (2:ℚ)^(53:ℕ) := by push_cast; ring
        _ ≤ (n.natAbs : ℚ) := hge
      have := Nat.cast_le (α := ℚ) |>.mp this
      omega
    have hn2 : n = 2^53 ∨ n = -(2^53) := by
      rcases Int.natAbs_eq n with h | h
      · left; omega
      · right; omega
    have hcast : ((n / 2 : ℤ):ℚ) = (n:ℚ) / 2^(E-52) := by
      rw [hE, show (53:ℤ) - 52 = 1 by norm_num, zpow_one]
      rcases hn2 with h | h <;> subst h <;> norm_num
    rw [← hcast, rne_intCast, hcast]
    exact div_mul_cancel₀ _ (two_zpow_pos (E-52)).ne'

theorem round64_err (q : ℚ) (hq : q ≠ 0) (E : ℤ)
    (hE : Int.log 2 |q| = E) (hEa : E.natAbs < 1200) :
    |round64 q - q| ≤ 2^(E-53) := by
  rw [round64_eq_of_binade q hq E hE hEa]
  set s : ℤ := E - 52 with hs
  set x : ℚ := q / 2^s with hx
  have hqx : q = x * 2^s := by
    rw [hx]
    field_simp
  calc |(rne x : ℚ) * 2^s - q| = |((rne x : ℚ) - x) * 2^s| := by
        rw [hqx]; ring_nf
  _ = |(rne x : ℚ) - x| * 2^s := by
        rw [abs_mul, abs_of_pos (two_zpow_pos s)]
  _ ≤ (1/2) * 2^s := by
        have := abs_rne_sub x
        have h2 := two_zpow_pos s
        nlinarith [abs_nonneg ((rne x : ℚ) - x)]
  _ = 2^(E-53) := by
        rw [hs]
        rw [show E - 52 = (E - 53) + 1 by ring, two_zpow_succ]
        ring

/-! ### Truncation and T-division -/

theorem rtrunc_intCast (n : ℤ) : rtrunc (n : ℚ) = n := by
  unfold rtrunc
  by_cases h : (0:ℚ) ≤ n
  · rw [if_pos h, Int.floor_intCast]
  · rw [if_neg h, Int.ceil_intCast]

theorem rtrunc_intCast_div_pos (a b : ℤ) (hb : 0 < b) :
    rtrunc ((a:ℚ)/b) = a.tdiv b := by
  have hbQ : (0:ℚ) < b := by exact_mod_cast hb
  have hbt : ((b.toNat : ℕ) : ℤ) = b := Int.toNat_of_nonneg hb.le
  have hbtQ : ((b.toNat : ℕ) : ℚ) = (b:ℚ) := by exact_mod_cast hbt
  have hfl : ⌊(a:ℚ)/b⌋ = a / b := by
    have h := Rat.floor_intCast_div_natCast a b.toNat
    rw [hbtQ, hbt] at h
    exact h
  by_cases ha : 0 ≤ a
  · have hq : 0 ≤ (a:ℚ)/b := div_nonneg (by exact_mod_cast ha) hbQ.le
    rw [rtrunc, if_pos hq, hfl, Int.tdiv_eq_ediv ha hb.le]
  · push_neg at ha
    have hq : (a:ℚ)/b < 0 := div_neg_of_neg_of_pos (by exact_mod_cast ha) hbQ
    rw [rtrunc, if_neg (not_le.mpr hq)]
    have hflneg : ⌊((-a:ℤ):ℚ)/b⌋ = (-a) / b := by
      have h := Rat.floor_intCast_div_natCast (-a) b.toNat
      rw [hbtQ, hbt] at h
      exact h
    have hcneg : ⌈(a:ℚ)/b⌉ = -((-a) / b) := by
      rw [show ((a:ℚ)/b) = -(((-a:ℤ):ℚ)/b) by push_cast; ring, Int.ceil_neg, hflneg]
    rw [hcneg, ← Int.tdiv_eq_ediv (by omega) hb.le, Int.neg_tdiv, neg_neg]

theorem rtrunc_intCast_div (a b : ℤ) (hb : b ≠ 0) :
    rtrunc ((a:ℚ)/b) = a.tdiv b := by
  rcases hb.lt_or_lt with hneg | hpos
  · have h := rtrunc_intCast_div_pos (-a) (-b) (by omega)
    rw [show (((-a:ℤ)):ℚ)/((-b:ℤ):ℚ) = (a:ℚ)/b by push_cast; ring,
      Int.neg_tdiv, Int.tdiv_neg, neg_neg] at h
    exact h
  · exact rtrunc_intCast_div_pos a b hpos

theorem neg_tmod (a b : ℤ) : (-a).tmod b = -(a.tmod b) := by
  rw [Int.tmod_def, Int.tmod_def, Int.neg_tdiv]
  ring

theorem tmod_natAbs_lt (a b : ℤ) (hb : b ≠ 0) : (a.tmod b).natAbs < b.natAbs := by
  have key : ∀ x : ℤ, 0 ≤ x → ∀ y : ℤ, 0 < y → (x.tmod y).natAbs < y.natAbs := by
    intro x hx y hy
    have h1 := Int.tmod_lt_of_pos x hy
    have h2 := Int.tmod_nonneg (a := x) y hx
    omega
  have hb' : b.tmod 0 = b := Int.tmod_zero b
  rcases le_or_lt 0 a with ha | ha <;> rcases hb.lt_or_lt with hbn | hbp
  · have := key a ha (-b) (by omega)
    rw [Int.tmod_neg] at this
    omega
  · have := key a ha b hbp
    omega
  · have := key (-a) (by omega) (-b) (by omega)
    rw [Int.tmod_neg, neg_tmod] at this
    omega
  · have := key (-a) (by omega) b hbp
    rw [neg_tmod] at this
    omega

/-- Distance from a rational `a/b` to any integer other than itself is at
least `1/|b|`. -/
theorem int_dist_ge (a b n : ℤ) (hb : b ≠ 0) (h : (a:ℚ)/b ≠ (n:ℚ)) :
    1/|(b:ℚ)| ≤ |(a:ℚ)/b - n| := by
  have hbQ : ((b:ℚ)) ≠ 0 := Int.cast_ne_zero.mpr hb
  have habs : (0:ℚ) < |(b:ℚ)| := abs_pos.mpr hbQ
  have hnum : (a:ℚ)/b - n = ((a - n*b : ℤ):ℚ) / b := by
    push_cast
    field_simp
    ring
  have hne : a - n*b ≠ 0 := by
    intro h0
    apply h
    have hmul : (a:ℚ) = (n:ℚ) * b := by exact_mod_cast (by omega : a = n * b)
    rw [hmul, mul_div_assoc, div_self hbQ, mul_one]
  have h1 : (1:ℚ) ≤ |((a - n*b : ℤ):ℚ)| := by
    rw [← Int.cast_abs]
    exact_mod_cast Int.one_le_abs hne
  rw [hnum, abs_div]
  rw [div_le_div_iff₀ habs habs, one_mul]
  calc |(b:ℚ)| = 1 * |(b:ℚ)| := (one_mul _).symm
  _ ≤ |((a - n*b : ℤ):ℚ)| * |(b:ℚ)| := by
      apply mul_le_mul_of_nonneg_right h1 habs.le

/-- Key exactness result: for `|a| < 2^53` and `|b| ≤ 2^53`, truncating the
correctly-rounded double quotient recovers C truncated division. -/
theorem rtrunc_round64_div (a b : ℤ) (hb : b ≠ 0)
    (ha : a.natAbs < 2^53) (hbs : b.natAbs ≤ 2^53) :
    rtrunc (round64 ((a:ℚ)/b)) = a.tdiv b := by
  have hbQ : ((b:ℚ)) ≠ 0 := Int.cast_ne_zero.mpr hb
  by_cases ha0 : a = 0
  · subst ha0
    simp [round64, rtrunc, Int.zero_tdiv]
  set q : ℚ := (a:ℚ)/b with hqdef
  have hq : q ≠ 0 := div_ne_zero (Int.cast_ne_zero.mpr ha0) hbQ
  by_cases hint : ∃ m : ℤ, q = (m:ℚ)
  · -- exact quotient: `q` is an integer of magnitude < 2^53
    obtain ⟨m, hm⟩ := hint
    have hmb : (a:ℚ) = (m:ℚ) * b := by
      rw [← div_mul_cancel₀ (a:ℚ) hbQ, ← hqdef, hm]
    have hab : a = m * b := by exact_mod_cast hmb
    have hmabs : m.natAbs ≤ a.natAbs := by
      rw [hab, Int.natAbs_mul]
      have : 1 ≤ b.natAbs := by omega
      nlinarith [Nat.le_mul_of_pos_right m.natAbs (by omega : 0 < b.natAbs)]
    rw [hm, round64_intCast m (by omega), rtrunc_intCast, hab,
      Int.mul_tdiv_cancel m hb]
  · push_neg at hint
    -- rounded quotient stays strictly between the neighbours of `q`
    obtain ⟨hlo, hhi⟩ := log2_spec q hq
    set E : ℤ := Int.log 2 |q| with hEdef
    have hqpos : (0:ℚ) < |q| := abs_pos.mpr hq
    have haQ : |(a:ℚ)| = (a.natAbs : ℚ) := Int.cast_abs.symm.trans Int.cast_natAbs.symm
    have hbQa : |(b:ℚ)| = (b.natAbs : ℚ) := Int.cast_abs.symm.trans Int.cast_natAbs.symm
    have hqb : |q| * |(b:ℚ)| = |(a:ℚ)| := by
      rw [← abs_mul, hqdef, div_mul_cancel₀ _ hbQ]
    have hb1 : (1:ℚ) ≤ |(b:ℚ)| := by
      rw [hbQa]
      exact_mod_cast (by omega : 1 ≤ b.natAbs)
    have hbpos : (0:ℚ) < |(b:ℚ)| := lt_of_lt_of_le one_pos hb1
    have haP : |(a:ℚ)| < (2:ℚ)^(53:ℕ) := by
      rw [haQ]
      exact_mod_cast ha
    have hqa : |q| ≤ |(a:ℚ)| := by
      nlinarith [abs_nonneg q, hb1, hqb]
    have hqlow : 1/|(b:ℚ)| ≤ |q| := by
      rw [div_le_iff₀ hbpos, hqb]
      rw [haQ]
      exact_mod_cast (by omega : 1 ≤ a.natAbs)
    -- bound the binade
    have hE53 : E ≤ 52 := by
      have hlt : |q| < ((2:ℕ):ℚ)^(53:ℤ) := by
        have : ((2:ℕ):ℚ)^(53:ℤ) = (2:ℚ)^(53:ℕ) := by
          push_cast
          rw [show ((53:ℤ)) = ((53:ℕ):ℤ) from rfl, zpow_natCast]
        rw [this]
        exact lt_of_le_of_lt hqa haP
      have := (Int.lt_zpow_iff_log_lt (R := ℚ) (b := 2) (by norm_num) hqpos).mp hlt
      omega
    have hEm : -107 ≤ E := by
      have hP : ((2:ℕ):ℚ)^(-107:ℤ) ≤ |q| := by
        have e1 : ((2:ℕ):ℚ)^(-107:ℤ) = 1/(2:ℚ)^(107:ℕ) := by
          rw [show ((2:ℕ):ℚ) = (2:ℚ) by norm_num, zpow_neg, one_div,
            show ((107:ℤ)) = ((107:ℕ):ℤ) from rfl, zpow_natCast]
        have h1 : 1/(2:ℚ)^(107:ℕ) ≤ 1/(2:ℚ)^(53:ℕ) := by
          apply one_div_le_one_div_of_le (by positivity)
          norm_num
        have h2 : 1/(2:ℚ)^(53:ℕ) ≤ 1/|(b:ℚ)| := by
          apply one_div_le_one_div_of_le hbpos
          rw [hbQa]
          exact_mod_cast hbs
        rw [e1]
        linarith
      have := (Int.zpow_le_iff_le_log (R := ℚ) (b := 2) (by norm_num) hqpos).mp hP
      omega
    have hEa : E.natAbs < 1200 := by omega
    have herr := round64_err q hq E hEdef.symm hEa
    -- half-ulp is strictly below `1/|b|`
    have herrb : |round64 q - q| < 1/|(b:ℚ)| := by
      have h1 : (2:ℚ)^(E-53) * (2:ℚ)^(53:ℤ) = (2:ℚ)^E := by
        rw [← zpow_add₀ (by norm_num : (2:ℚ) ≠ 0)]
        ring_nf
      have h2 : ((2:ℚ))^(53:ℤ) = (2:ℚ)^(53:ℕ) := by
        rw [show ((53:ℤ)) = ((53:ℕ):ℤ) from rfl, zpow_natCast]
      have h3 : (2:ℚ)^(E-53) ≤ |q| / (2:ℚ)^(53:ℕ) := by
        rw [le_div_iff₀ (by positivity), ← h2, h1]
        exact hlo
      have h4 : |q| / (2:ℚ)^(53:ℕ) < 1/|(b:ℚ)| := by
        rw [div_lt_div_iff₀ (by positivity) hbpos, hqb, one_mul]
        exact haP
      linarith
    have hflq : (⌊q⌋:ℚ) + 1/|(b:ℚ)| ≤ q := by
      have hne : q ≠ ((⌊q⌋:ℤ):ℚ) := fun h => hint ⌊q⌋ h
      have := int_dist_ge a b ⌊q⌋ hb (by rw [← hqdef]; exact hne)
      rw [← hqdef] at this
      have hge : (⌊q⌋:ℚ) ≤ q := Int.floor_le q
      rw [abs_of_nonneg (sub_nonneg.mpr hge)] at this
      linarith
    have hclq : q + 1/|(b:ℚ)| ≤ (⌈q⌉:ℚ) := by
      have hne : q ≠ ((⌈q⌉:ℤ):ℚ) := fun h => hint ⌈q⌉ h
      have := int_dist_ge a b ⌈q⌉ hb (by rw [← hqdef]; exact hne)
      rw [← hqdef] at this
      have hle : q ≤ (⌈q⌉:ℚ) := Int.le_ceil q
      rw [abs_of_nonpos (sub_nonpos.mpr hle)] at this
      linarith
    set r : ℚ := round64 q with hrdef
    have hrlo : (⌊q⌋:ℚ) < r := by
      have := abs_lt.mp herrb
      linarith
    have hrhi : r < (⌈q⌉:ℚ) := by
      have := abs_lt.mp herrb
      linarith
    have hceil : (⌈q⌉:ℚ) ≤ (⌊q⌋:ℚ) + 1 := by
      exact_mod_cast Int.ceil_le_floor_add_one q
    have hflr : ⌊r⌋ = ⌊q⌋ := by
      rw [Int.floor_eq_iff]
      exact ⟨by linarith, by linarith⟩
    have hclr : ⌈r⌉ = ⌈q⌉ := by
      rw [Int.ceil_eq_iff]
      exact ⟨by linarith, by linarith⟩
    have htr : rtrunc q = a.tdiv b := by
      rw [hqdef] at *
      exact rtrunc_intCast_div a b hb
    rcases le_or_lt 0 q with hqs | hqs
    · have hf0 : (0:ℤ) ≤ ⌊q⌋ := Int.floor_nonneg.mpr hqs
      have hr0 : (0:ℚ) ≤ r := by
        have : ((0:ℤ):ℚ) ≤ (⌊q⌋:ℚ) := by exact_mod_cast hf0
        push_cast at this
        linarith
      rw [← htr]
      unfold rtrunc
      rw [if_pos hr0, if_pos hqs, hflr]
    · have hc0 : ⌈q⌉ ≤ 0 := Int.ceil_le.mpr (by exact_mod_cast hqs.le)
      have hr0 : r < 0 := by
        have : (⌈q⌉:ℚ) ≤ ((0:ℤ):ℚ) := by exact_mod_cast hc0
        push_cast at this
        linarith
      rw [← htr]
      unfold rtrunc
      rw [if_neg (not_le.mpr hr0), if_neg (not_le.mpr hqs), hclr]

/-! ## The numeric kernel of `eval_binary` (interpreter.c:1551-1601)

For two integer operands, `eval_binary` converts both to `double`
(`double a = ... (double)left.data.int_val`), performs the operation in
double precision, and produces `value_int((int64_t)(a OP b))` for
`+ - * //`; for `%` it instead casts each converted operand back to
`int64_t` and applies the C `%` operator
(`value_int((int64_t)a % (int64_t)b)`). -/

/-- C conversion `(double)` applied to an `int64_t` operand. -/
def dbl (n : ℤ) : ℚ := round64 (n : ℚ)

/-- `OP_ADD` on two integers: `value_int((int64_t)(a + b))`. -/
def add64 (a b : ℤ) : Option ℤ := i64cast (round64 (dbl a + dbl b))

/-- `OP_SUB` on two integers: `value_int((int64_t)(a - b))`. -/
def sub64 (a b : ℤ) : Option ℤ := i64cast (round64 (dbl a - dbl b))

/-- `OP_MUL` on two integers: `value_int((int64_t)(a * b))`. -/
def mul64 (a b : ℤ) : Option ℤ := i64cast (round64 (dbl a * dbl b))

/-- `OP_INT_DIV` on two integers after the `b == 0` check:
`value_int((int64_t)(a / b))`; the division is performed on doubles. -/
def intDiv64 (a b : ℤ) : Option ℤ := i64cast (round64 (dbl a / dbl b))

/-- `OP_MOD`: `value_int((int64_t)a % (int64_t)b)`.  The code has no zero
check here; `%` by zero and the `INT64_MIN % -1` overflow are undefined in C
and modeled as `none`. -/
def mod64 (a b : ℤ) : Option ℤ := do
  let A ← i64cast (dbl a)
  let B ← i64cast (dbl b)
  if B = 0 then none
  else if A = -(2^63) ∧ B = -1 then none
  else some (A.tmod B)

/-- The program expression `a // b * b + a % b`, evaluated step by step the
way `eval_binary` computes it on integer operands. -/
def divModIdentityLhs (a b : ℤ) : Option ℤ := do
  let x ← intDiv64 a b
  let y ← mul64 x b
  let m ← mod64 a b
  add64 y m

/-! ### Exactness of the kernels on small integers -/

theorem dbl_intCast (n : ℤ) (hn : n.natAbs ≤ 2^53) : dbl n = (n:ℚ) :=
  round64_intCast n hn

theorem i64cast_intCast (n : ℤ) (hn : n.natAbs < 2^63) : i64cast (n:ℚ) = some n := by
  unfold i64cast
  rw [rtrunc_intCast]
  rw [if_pos (by omega)]

theorem natAbs_tdiv_le (a b : ℤ) : (a.tdiv b).natAbs ≤ a.natAbs := by
  rw [Int.natAbs_tdiv]
  exact Nat.div_le_self _ _

theorem intDiv64_eq_tdiv (a b : ℤ) (hb : b ≠ 0)
    (ha : a.natAbs < 2^53) (hbs : b.natAbs ≤ 2^53) :
    intDiv64 a b = some (a.tdiv b) := by
  unfold intDiv64
  rw [dbl_intCast a (by omega), dbl_intCast b hbs]
  unfold i64cast
  rw [rtrunc_round64_div a b hb ha hbs]
  rw [if_pos (by have := natAbs_tdiv_le a b; omega)]

theorem mod64_eq_tmod (a b : ℤ) (hb : b ≠ 0)
    (ha : a.natAbs < 2^53) (hbs : b.natAbs ≤ 2^53) :
    mod64 a b = some (a.tmod b) := by
  unfold mod64
  rw [dbl_intCast a (by omega), dbl_intCast b hbs,
    i64cast_intCast a (by omega), i64cast_intCast b (by omega)]
  simp only [Option.bind_eq_bind, Option.some_bind]
  rw [if_neg hb, if_neg (by omega)]

theorem round64_zero : round64 0 = 0 := by simp [round64]

theorem i64cast_zero : i64cast (0:ℚ) = some 0 := by
  rw [show ((0:ℚ)) = ((0:ℤ):ℚ) by norm_num, i64cast_intCast 0 (by norm_num)]

theorem mul64_exact (a b : ℤ) (hab : a.natAbs * b.natAbs ≤ 2^53) :
    mul64 a b = some (a * b) := by
  by_cases ha0 : a = 0
  · subst ha0
    unfold mul64
    rw [show dbl 0 = 0 by rw [dbl, Int.cast_zero, round64_zero], zero_mul,
      round64_zero, i64cast_zero, zero_mul]
  · by_cases hb0 : b = 0
    · subst hb0
      unfold mul64
      rw [show dbl 0 = 0 by rw [dbl, Int.cast_zero, round64_zero], mul_zero,
        round64_zero, i64cast_zero, mul_zero]
    · have ha1 : 1 ≤ a.natAbs := by omega
      have hb1 : 1 ≤ b.natAbs := by omega
      have ha : a.natAbs ≤ 2^53 := by nlinarith
      have hb : b.natAbs ≤ 2^53 := by nlinarith
      unfold mul64
      rw [dbl_intCast a ha, dbl_intCast b hb,
        show ((a:ℚ)) * (b:ℚ) = ((a*b : ℤ):ℚ) by push_cast; ring,
        round64_intCast (a*b) (by rw [Int.natAbs_mul]; omega),
        i64cast_intCast (a*b) (by rw [Int.natAbs_mul]; omega)]

theorem add64_exact (a b : ℤ) (ha : a.natAbs ≤ 2^53) (hb : b.natAbs ≤ 2^53)
    (hs : (a+b).natAbs ≤ 2^53) :
    add64 a b = some (a + b) := by
  unfold add64
  rw [dbl_intCast a ha, dbl_intCast b hb,
    show ((a:ℚ)) + (b:ℚ) = ((a+b : ℤ):ℚ) by push_cast; ring,
    round64_intCast (a+b) hs, i64cast_intCast (a+b) (by omega)]

/-! ## Claim C6 -/

/-- C6 counterexample: the claim asserts the division/modulo laws over the
full 64-bit signed range.  At `a = 2^53 + 1`, `b = 1` the conversion of `a`
to `double` rounds to `2^53` (ties to even), so the evaluated `a // b` is
`2^53` instead of the truncated quotient `2^53 + 1`, and the evaluated
`a // b * b + a % b` is `2^53 ≠ a`. -/
theorem c6_divmod_counterexample :
    intDiv64 (2^53+1) 1 = some (2^53) ∧
    Int.tdiv (2^53+1) 1 = 2^53+1 ∧
    divModIdentityLhs (2^53+1) 1 = some (2^53) ∧
    ((2^53 : ℤ)) ≠ 2^53+1 := by
  refine ⟨by decide, by decide, by decide, by decide⟩

/-- C6 (amended): for integers `a`, `b` with `b ≠ 0`, `|a| < 2^53` and
`|b| ≤ 2^53` (the range on which the `double` data path of `eval_binary` is
exact), the evaluated `a // b` truncates toward zero, the evaluated
`a // b * b + a % b` equals `a`, and `a % b` is zero or has the sign of
`a`. -/
theorem c6_divmod_laws (a b : ℤ) (hb : b ≠ 0)
    (ha : a.natAbs < 2^53) (hbs : b.natAbs ≤ 2^53) :
    intDiv64 a b = some (a.tdiv b) ∧
    divModIdentityLhs a b = some a ∧
    mod64 a b = some (a.tmod b) ∧
    (a.tmod b = 0 ∨ (0 < a ∧ 0 < a.tmod b) ∨ (a < 0 ∧ a.tmod b < 0)) := by
  have hdiv := intDiv64_eq_tdiv a b hb ha hbs
  have hmod := mod64_eq_tmod a b hb ha hbs
  have hxb : ((a.tdiv b) * b).natAbs ≤ a.natAbs := by
    rw [Int.natAbs_mul, Int.natAbs_tdiv]
    exact Nat.div_mul_le_self _ _
  have hmabs : (a.tmod b).natAbs < b.natAbs := tmod_natAbs_lt a b hb
  have hsum : a.tdiv b * b + a.tmod b = a := by
    have := Int.tdiv_add_tmod a b
    linarith
  refine ⟨hdiv, ?_, hmod, ?_⟩
  · unfold divModIdentityLhs
    rw [hdiv]
    simp only [Option.bind_eq_bind, Option.some_bind]
    rw [mul64_exact (a.tdiv b) b (by
      calc (a.tdiv b).natAbs * b.natAbs = ((a.tdiv b) * b).natAbs := (Int.natAbs_mul _ _).symm
      _ ≤ a.natAbs := hxb
      _ ≤ 2^53 := by omega)]
    simp only [Option.some_bind]
    rw [hmod]
    simp only [Option.some_bind]
    rw [add64_exact (a.tdiv b * b) (a.tmod b) (by omega) (by omega)
      (by rw [hsum]; omega)]
    rw [hsum]
  · rcases lt_trichotomy a 0 with haneg | hzero | hapos
    · have h1 := Int.tmod_nonneg (a := -a) b (by omega)
      rw [neg_tmod] at h1
      rcases (by omega : a.tmod b = 0 ∨ a.tmod b < 0) with h | h
      · exact Or.inl h
      · exact Or.inr (Or.inr ⟨haneg, h⟩)
    · subst hzero
      exact Or.inl (Int.zero_tmod b)
    · have h1 := Int.tmod_nonneg (a := a) b (by omega)
      rcases (by omega : a.tmod b = 0 ∨ 0 < a.tmod b) with h | h
      · exact Or.inl h
      · exact Or.inr (Or.inl ⟨hapos, h⟩)

/-- Witness for C6 at the concrete pair `a = -7`, `b = 2` (truncation toward
zero: `-7 // 2 = -3`, `-7 % 2 = -1`). -/
theorem c6_divmod_witness :
    intDiv64 (-7) 2 = some (-3) ∧
    divModIdentityLhs (-7) 2 = some (-7) ∧
    mod64 (-7) 2 = some (-1) := by
  have h := c6_divmod_laws (-7) 2 (by norm_num) (by norm_num) (by norm_num)
  refine ⟨?_, h.2.1, ?_⟩
  · rw [h.1]; decide
  · rw [h.2.2.1]; decide

/-! ## The interpreter embedding

Data model from `interpreter.h` / `interpreter.c`.  Heap-allocated objects
whose identity is observable (environments, generators, instances) live in
stores indexed by allocation order; `Value` mirrors the tagged union.
Strings, lists and numbers are pure data (their C heap copies have no
observable identity).  The modeled subset covers the constructs the claims
exercise; dicts, promises, classes-as-values, lambdas, spread arguments and
rest parameters are omitted. -/

/-- GenStatus (interpreter.h:129). -/
inductive GenStatus where
  | stopped | running | suspended | done
deriving DecidableEq

/-- Binary operators of `eval_binary` used by the claims. -/
inductive Op where
  | add | sub | mul | div | intdiv | mod | eq
deriving DecidableEq

mutual
/-- AST expression nodes (ast.h), restricted to the claim-relevant subset. -/
inductive Expr where
  | intLit (n : ℤ)
  | floatLit (q : ℚ)
  | strLit (s : String)
  | boolLit (b : Bool)
  | ident (name : String)
  | binary (op : Op) (l r : Expr)
  | call (name : String) (args : List Expr)
  | listLit (elems : List Expr)
  | member (obj : Expr) (name : String)
  | sliceE (obj : Expr) (startE endE stepE : Option Expr)

/-- AST statement nodes.  Loop statements carry a label `nid` standing for
the C AST node's address, used by the generator frame matching; a `Block`
likewise carries `bid` for the address of its statement array. -/
inductive Stmt where
  | designate (name : String) (value : Expr)
  | assign (name : String) (value : Expr)
  | exprStmt (e : Expr)
  | protocol (name : String) (params : List String) (isSeq : Bool) (body : Block)
  | yieldS (value : Option Expr)
  | breakS
  | continueS
  | cycleWhile (nid : Nat) (cond : Expr) (body : Block)
  | cycleFromTo (nid : Nat) (startE endE : Expr) (varName : String) (body : Block)
  | situation (scrutinee : Expr) (aligns : List Align)

/-- One `alignment` arm of a `situation` (AST_ALIGNMENT). -/
inductive Align where
  | mk (isOtherwise : Bool) (values : List Expr) (body : Block)

/-- A statement block (an `ASTNodeArray` in the C code). -/
inductive Block where
  | mk (bid : Nat) (stmts : List Stmt)
end

def Block.bid : Block → Nat
  | .mk b _ => b

def Block.stmts : Block → List Stmt
  | .mk _ ss => ss

/-- Function (interpreter.h:84): name, node (params/body/is-sequence), and
the captured environment.  `value_copy` shares `node` and `closure`. -/
structure FuncData where
  name : String
  params : List String
  isSeq : Bool
  body : Block
  closure : Nat

/-- Value (interpreter.h:46).  `vinstance`/`vgen` hold store indices; copies
of instances share the referent while copies of generators deep-copy it,
mirroring `value_copy`. -/
inductive Value where
  | vnull
  | vbool (b : Bool)
  | vint (n : ℤ)
  | vfloat (q : ℚ)
  | vstr (s : String)
  | vlist (items : List Value)
  | vfunc (fn : FuncData)
  | vbuiltin (name : String)
  | vinstance (iid : Nat)
  | vgen (gid : Nat)

/-- EnvEntry (interpreter.h:111). -/
structure EnvEntry where
  name : String
  value : Value
  isOverride : Bool

/-- Environment (interpreter.h:118): entries (most recent first, as
`env_define` prepends), parent pointer, and the root used by `override`. -/
structure EnvNode where
  entries : List EnvEntry
  parent : Option Nat
  global : Nat

/-- GenFrame (interpreter.h:139). -/
inductive GenFrame where
  | blockF (bid : Nat) (index : Nat)
  | cycleThroughF (nid : Nat) (iterable : Value) (index : Nat)
  | cycleFromToF (nid : Nat) (current : ℤ) (endv : ℤ)
  | cycleWhileF (nid : Nat)
  | delegateF (nid : Nat) (iterable : Value) (index : Nat)

/-- Generator (interpreter.h:148).  `stack` is in push order: the head is
the first frame pushed, the last element is the top of the stack. -/
structure GenState where
  func : FuncData
  envId : Nat
  selfVal : Value
  status : GenStatus
  stack : List GenFrame
  sentVal : Value
  hasSent : Bool
  thrownVal : Value
  hasThrown : Bool

/-- Instance (interpreter.h:101): isolated field environment plus the class
method environment (`class_def->methods`, whose parent chain realizes
inheritance). -/
structure InstState where
  fieldsEnv : Nat
  methodsEnv : Nat

/-- Interpreter (interpreter.h:189) together with the object stores.
`resumeStack` is stored top-first (the C code consumes
`resume_stack[resume_count-1]` first). -/
structure InterpState where
  envs : List EnvNode
  gens : List GenState
  insts : List InstState
  globalEnv : Nat
  currentEnv : Nat
  currentGen : Option Nat
  retVal : Value
  hasReturn : Bool
  hasBreak : Bool
  hasContinue : Bool
  hasError : Bool
  errorMsg : String
  isResuming : Bool
  resumeStack : List GenFrame

/-- runtime_error (interpreter.c:1432): records the message and raises the
error flag (diagnostic printing and the repeat counter are not modeled). -/
def runtimeError (s : InterpState) (msg : String) : InterpState :=
  { s with hasError := true, errorMsg := msg }

/-! ### Environment operations (interpreter.c:532-620) -/

/-- env_find (interpreter.c:560): first entry carrying the name. -/
def envFind (entries : List EnvEntry) (name : String) : Option EnvEntry :=
  entries.find? (fun e => e.name == name)

/-- env_define (interpreter.c:551): prepend a fresh entry in the given
scope (is_override is initialized to false). -/
def envDefine (s : InterpState) (envId : Nat) (name : String) (v : Value) : InterpState :=
  match s.envs[envId]? with
  | none => s
  | some node =>
    { s with envs := s.envs.set envId { node with entries := ⟨name, v, false⟩ :: node.entries } }

/-- Mutate the first entry with the given name (keeping its override flag),
as `env_set` does on the entry found by `env_find`. -/
def updateFirst : List EnvEntry → String → Value → List EnvEntry
  | [], _, _ => []
  | e :: rest, name, v =>
    if e.name == name then { e with value := v } :: rest
    else e :: updateFirst rest name v

/-- Mutate the first entry with the given name and mark it override, as
`env_force_set` does. -/
def updateFirstOverride : List EnvEntry → String → Value → List EnvEntry
  | [], _, _ => []
  | e :: rest, name, v =>
    if e.name == name then { e with value := v, isOverride := true } :: rest
    else e :: updateFirstOverride rest name v

/-- env_set (interpreter.c:569): mutate a binding in the current scope, else
in the immediate parent scope (the code checks only one level of parents),
else define in the current scope. -/
def envSet (s : InterpState) (envId : Nat) (name : String) (v : Value) : InterpState :=
  match s.envs[envId]? with
  | none => s
  | some node =>
    if (envFind node.entries name).isSome then
      { s with envs := s.envs.set envId { node with entries := updateFirst node.entries name v } }
    else
      match node.parent with
      | some pid =>
        match s.envs[pid]? with
        | some pnode =>
          if (envFind pnode.entries name).isSome then
            { s with envs := s.envs.set pid { pnode with entries := updateFirst pnode.entries name v } }
          else envDefine s envId name v
        | none => envDefine s envId name v
      | none => envDefine s envId name v

/-- env_force_set (interpreter.c:609): write into the chain's global scope,
marking the binding override when it already exists (a freshly defined
binding keeps is_override = false, as `env_define` sets it). -/
def envForceSet (s : InterpState) (envId : Nat) (name : String) (v : Value) : InterpState :=
  match s.envs[envId]? with
  | none => s
  | some node =>
    match s.envs[node.global]? with
    | none => s
    | some gnode =>
      if (envFind gnode.entries name).isSome then
        let gnode' := { gnode with entries := updateFirstOverride gnode.entries name v }
        { s with envs := s.envs.set node.global gnode' }
      else
        let gnode' := { gnode with entries := ⟨name, v, false⟩ :: gnode.entries }
        { s with envs := s.envs.set node.global gnode' }

/-! ### Value operations (interpreter.c:346-525) -/

/-- value_is_truthy (interpreter.c:346). -/
def valueIsTruthy : Value → Bool
  | .vnull => false
  | .vbool b => b
  | .vint n => n != 0
  | .vfloat q => q != 0
  | .vstr s => s.length > 0
  | .vlist items => items.length > 0
  | _ => true

mutual
/-- value_equals (interpreter.c:471): false when the type tags differ;
structural for numbers, strings and lists; identity for instances and
builtins.  Function values are compared by struct pointer in C: since every
evaluated value is a fresh copy, two separately evaluated function values
never share a pointer, which this model renders as `false`. -/
def valueEquals : Value → Value → Bool
  | .vnull, .vnull => true
  | .vbool a, .vbool b => a == b
  | .vint a, .vint b => a == b
  | .vfloat a, .vfloat b => a == b
  | .vstr a, .vstr b => a == b
  | .vlist a, .vlist b => valueEqualsList a b
  | .vbuiltin a, .vbuiltin b => a == b
  | .vinstance a, .vinstance b => a == b
  | _, _ => false

def valueEqualsList : List Value → List Value → Bool
  | [], [] => true
  | a :: as', b :: bs' => valueEquals a b && valueEqualsList as' bs'
  | _, _ => false
end

/-! ### value_copy (interpreter.c:409-469)

Strings are re-allocated (same content), lists are copied element-wise,
function structs are duplicated sharing node and closure, instances are
shared, and generators are deep-copied: a fresh environment node with the
same parent receives copies of the entries (the C loop `env_define`s them
head-to-tail, which *reverses* the entry order and resets their override
flags), the self value and the frame stack are copied (only
`GEN_FRAME_CYCLE_THROUGH` frames deep-copy their iterable, interpreter.c:455),
and the send/throw slots of the copy start out empty.  Copying can allocate,
so the copy routine threads the state; the fuel bounds recursion through the
stores. -/

inductive CopyTask where
  | one (v : Value)
  | many (vs : List Value)
  | ents (es : List EnvEntry)
  | frames (fs : List GenFrame)

inductive CopyRes where
  | one (v : Value)
  | many (vs : List Value)
  | ents (es : List EnvEntry)
  | frames (fs : List GenFrame)

def copyRun : Nat → CopyTask → InterpState → Option (CopyRes × InterpState)
  | 0, _, _ => none
  | fuel+1, t, s =>
    match t with
    | .one v =>
      match v with
      | .vlist items =>
        match copyRun fuel (.many items) s with
        | some (.many vs, s1) => some (.one (.vlist vs), s1)
        | _ => none
      | .vgen gid =>
        match s.gens[gid]? with
        | none => none
        | some g =>
          match s.envs[g.envId]? with
          | none => none
          | some srcEnv =>
            let newEnvId := s.envs.length
            let newGlobal :=
              match srcEnv.parent with
              | some p => match s.envs[p]? with
                          | some pn => pn.global
                          | none => newEnvId
              | none => newEnvId
            let s1 := { s with envs := s.envs ++ [⟨[], srcEnv.parent, newGlobal⟩] }
            match copyRun fuel (.ents srcEnv.entries) s1 with
            | some (.ents ce, s2) =>
              let s3 :=
                match s2.envs[newEnvId]? with
                | some node => { s2 with envs := s2.envs.set newEnvId { node with entries := ce.reverse } }
                | none => s2
              match copyRun fuel (.one g.selfVal) s3 with
              | some (.one sv, s4) =>
                match copyRun fuel (.frames g.stack) s4 with
                | some (.frames fs, s5) =>
                  let newGid := s5.gens.length
                  let s6 := { s5 with gens := s5.gens ++
                    [⟨g.func, newEnvId, sv, g.status, fs, .vnull, false, .vnull, false⟩] }
                  some (.one (.vgen newGid), s6)
                | _ => none
              | _ => none
            | _ => none
      | other => some (.one other, s)
    | .many vs =>
      match vs with
      | [] => some (.many [], s)
      | v :: rest =>
        match copyRun fuel (.one v) s with
        | some (.one v', s1) =>
          match copyRun fuel (.many rest) s1 with
          | some (.many vs', s2) => some (.many (v' :: vs'), s2)
          | _ => none
        | _ => none
    | .ents es =>
      match es with
      | [] => some (.ents [], s)
      | e :: rest =>
        match copyRun fuel (.one e.value) s with
        | some (.one v', s1) =>
          match copyRun fuel (.ents rest) s1 with
          | some (.ents es', s2) => some (.ents (⟨e.name, v', false⟩ :: es'), s2)
          | _ => none
        | _ => none
    | .frames fs =>
      match fs with
      | [] => some (.frames [], s)
      | f :: rest =>
        match (match f with
               | .cycleThroughF nid it idx =>
                 match copyRun fuel (.one it) s with
                 | some (.one it', s1) => some (GenFrame.cycleThroughF nid it' idx, s1)
                 | _ => none
               | other => some (other, s)) with
        | some (f', s1) =>
          match copyRun fuel (.frames rest) s1 with
          | some (.frames fs', s2) => some (.frames (f' :: fs'), s2)
          | _ => none
        | none => none

/-- value_copy of a single value. -/
def copyVal (fuel : Nat) (v : Value) (s : InterpState) : Option (Value × InterpState) :=
  match copyRun fuel (.one v) s with
  | some (.one v', s') => some (v', s')
  | _ => none

/-- The chain walk of env_get (interpreter.c:592): the stored value of the
first entry carrying the name along the parent chain (`some none` when the
walk reaches the root without finding one). -/
def envLookup : Nat → InterpState → Nat → String → Option (Option Value)
  | 0, _, _, _ => none
  | fuel+1, s, envId, name =>
    match s.envs[envId]? with
    | none => none
    | some node =>
      match envFind node.entries name with
      | some e => some (some e.value)
      | none =>
        match node.parent with
        | some pid => envLookup fuel s pid name
        | none => some none

/-- env_get (interpreter.c:592): walk the scope chain and return a
`value_copy` of the found value (the walk itself does not change the
state). -/
def envGet (fuel : Nat) (envId : Nat) (name : String) (s : InterpState) :
    Option (Option Value × InterpState) :=
  match envLookup fuel s envId name with
  | none => none
  | some none => some (none, s)
  | some (some v) =>
    match copyVal fuel v s with
    | some (c, s1) => some (some c, s1)
    | none => none

/-! ### eval_binary (interpreter.c:1487-1601)

Only numeric operands are modeled: for any other tag the C code reads
indeterminate bits of the union (or takes the string paths, which no claim
exercises), so the model returns `none` there. -/

/-- Numeric promotion (interpreter.c:1552-1556): each operand becomes a
`double`. -/
def promoteNum : Value → Option ℚ
  | .vint n => some (dbl n)
  | .vfloat q => some q
  | _ => none

def isFloatV : Value → Bool
  | .vfloat _ => true
  | _ => false

def evalBinary (op : Op) (lv rv : Value) (s : InterpState) : Option (Value × InterpState) :=
  match promoteNum lv, promoteNum rv with
  | some aq, some bq =>
    let useFloat := isFloatV lv || isFloatV rv
    match op with
    | .add =>
      if useFloat then some (.vfloat (round64 (aq+bq)), s)
      else (i64cast (round64 (aq+bq))).map (fun n => (.vint n, s))
    | .sub =>
      if useFloat then some (.vfloat (round64 (aq-bq)), s)
      else (i64cast (round64 (aq-bq))).map (fun n => (.vint n, s))
    | .mul =>
      if useFloat then some (.vfloat (round64 (aq*bq)), s)
      else (i64cast (round64 (aq*bq))).map (fun n => (.vint n, s))
    | .div =>
      if bq = 0 then
        some (.vnull, runtimeError s "Division by zero. Even infinity has its limits.")
      else some (.vfloat (round64 (aq/bq)), s)
    | .intdiv =>
      if bq = 0 then
        some (.vnull, runtimeError s "Division by zero. Even infinity has its limits.")
      else (i64cast (round64 (aq/bq))).map (fun n => (.vint n, s))
    | .mod => do
      let A ← i64cast aq
      let B ← i64cast bq
      if B = 0 then none
      else if A = -(2^63) ∧ B = -1 then none
      else some (.vint (A.tmod B), s)
    | .eq => some (.vbool (decide (aq = bq)), s)
  | _, _ => none

/-- On two integer operands, `eval_binary`'s `//` is exactly the `intDiv64`
kernel (and analogously for the other operators). -/
theorem evalBinary_int_intdiv (a b : ℤ) (s : InterpState) (hb : dbl b ≠ 0) :
    evalBinary .intdiv (.vint a) (.vint b) s
      = (intDiv64 a b).map (fun n => (.vint n, s)) := by
  simp [evalBinary, promoteNum, isFloatV, intDiv64, hb]

/-! ### Slicing (interpreter.c:2113-2228) -/

/-- Bound resolution (interpreter.c:2154-2166): negative bounds are resolved
by adding the length; then `start` is clamped to `[0, len]` while `end` is
clamped only from above by `len` (the code has no `end < 0 → end = 0`
clamp). -/
def sliceResolve (len start0 end0 : ℤ) : ℤ × ℤ :=
  let start1 := if start0 < 0 then len + start0 else start0
  let end1 := if end0 < 0 then len + end0 else end0
  let start2 := if start1 < 0 then 0 else start1
  let end2 := if end1 > len then len else end1
  let start3 := if start2 > len then len else start2
  (start3, end2)

/-- Positive-step list loop (interpreter.c:2181-2192):
`for (i = start; i < end; i += step)`.  Element copies of plain data are the
identity in this model. -/
def slicePosLoop : Nat → List Value → ℤ → ℤ → ℤ → List Value
  | 0, _, _, _, _ => []
  | fuel+1, items, i, endv, step =>
    if i < endv then
      (match items[i.toNat]? with
       | some v => [v]
       | none => []) ++ slicePosLoop fuel items (i+step) endv step
    else []

/-- Negative-step list loop (interpreter.c:2193-2206):
`for (i = end < start ? start-1 : start; i > end; i += step)` guarded by
`0 <= i < len`. -/
def sliceNegLoop : Nat → List Value → ℤ → ℤ → ℤ → ℤ → List Value
  | 0, _, _, _, _, _ => []
  | fuel+1, items, len, i, endv, step =>
    if i > endv then
      (if 0 ≤ i ∧ i < len then
        (match items[i.toNat]? with
         | some v => [v]
         | none => [])
       else []) ++ sliceNegLoop fuel items len (i+step) endv step
    else []

/-- String loop (interpreter.c:2213-2223):
`for (i = start; i < end && i < len; i += step)` — used for every step
sign. -/
def sliceStrLoop : Nat → List Char → ℤ → ℤ → ℤ → ℤ → List Char
  | 0, _, _, _, _, _ => []
  | fuel+1, cs, len, i, endv, step =>
    if i < endv ∧ i < len then
      (match cs[i.toNat]? with
       | some c => [c]
       | none => []) ++ sliceStrLoop fuel cs len (i+step) endv step
    else []

/-- List slice after bound resolution and the step ≠ 0 check. -/
def sliceListCore (items : List Value) (startv endv step : ℤ) : List Value :=
  if step > 0 then
    slicePosLoop ((endv - startv).toNat + 1) items startv endv step
  else
    let i0 := if endv < startv then startv - 1 else startv
    sliceNegLoop ((i0 - endv).toNat + 1) items (items.length : ℤ) i0 endv step

/-- String slice after bound resolution and the step ≠ 0 check.  With a
negative step and `start < min(end, len)` the C loop decrements `i` without
a lower bound and reads before the buffer: undefined, modeled as `none`. -/
def sliceStrCore (cs : List Char) (startv endv step : ℤ) : Option (List Char) :=
  if step < 0 ∧ startv < endv ∧ startv < (cs.length : ℤ) then none
  else some (sliceStrLoop ((endv - startv).toNat + 1) cs (cs.length : ℤ) startv endv step)

/-! ### The evaluator -/

/-- The private-name test `member[0] == '_'` (interpreter.c:1881). -/
def isPrivateName (n : String) : Bool :=
  match n.data with
  | c :: _ => c == '_'
  | [] => false

/-- Stack depth of the current generator, 0 when none
(`interp->current_gen ? interp->current_gen->stack_count : 0`). -/
def genStackLen (s : InterpState) : Nat :=
  match s.currentGen with
  | some gid =>
    match s.gens[gid]? with
    | some g => g.stack.length
    | none => 0
  | none => 0

/-- gen_push_frame (interpreter.c:1471) applied to the current generator. -/
def genPushFrame (s : InterpState) (f : GenFrame) : InterpState :=
  match s.currentGen with
  | some gid =>
    match s.gens[gid]? with
    | some g => { s with gens := s.gens.set gid { g with stack := g.stack ++ [f] } }
    | none => s
  | none => s

/-- Parameter binding loop of `interpreter_call` (interpreter.c:3124-3146),
restricted to plain identifier patterns without defaults or rest: each bound
argument is `value_copy`ed by `assign_to_target`, missing ones bind void. -/
def bindParams : Nat → List String → List Value → Nat → InterpState → Option InterpState
  | 0, _, _, _, _ => none
  | _+1, [], _, _, s => some s
  | fuel+1, p :: ps, args, envId, s =>
    match args with
    | a :: rest =>
      match copyVal fuel a s with
      | some (c, s1) => bindParams fuel ps rest envId (envDefine s1 envId p c)
      | none => none
    | [] => bindParams fuel ps [] envId (envDefine s envId p .vnull)

/-- The work items of the evaluator: expression evaluation (`eval_expr`),
statement evaluation (`eval_stmt`), block execution (`exec_block`) split into
entry and loop, the loop bodies of the cycle statements and of `situation`,
call dispatch (`eval_call` / `interpreter_call` / builtins), generator
advance (`interpreter_gen_next`) and the top-level program loop
(`eval_stmt`, AST_PROGRAM). -/
inductive Task where
  | expr (e : Expr)
  | stmt (st : Stmt)
  | block (b : Block)
  | blockLoop (b : Block) (i : Nat)
  | evalList (es : List Expr) (acc : List Value)
  | callFunc (fn : FuncData) (selfV : Value) (args : List Value)
  | builtinCall (name : String) (args : List Value)
  | genNext (gid : Nat)
  | whileLoop (nid : Nat) (cond : Expr) (body : Block)
  | fromToLoop (nid : Nat) (varName : String) (body : Block) (current endv : ℤ)
  | alignsLoop (scrut : Value) (aligns : List Align)
  | alignValsLoop (scrut : Value) (vals : List Expr) (body : Block) (rest : List Align)
  | otherwiseLoop (aligns : List Align)
  | program (stmts : List Stmt)

/-- The interpreter.  `none` means the fuel ran out or the C code's behavior
is undefined / outside the modeled subset; `some (v, s')` is the computed
value (statements yield void) and the post-state. -/
def run : Nat → Task → InterpState → Option (Value × InterpState)
  | 0, _, _ => none
  | fuel+1, t, s =>
    match t with
    | .expr e =>
      match e with
      | .intLit n => some (.vint n, s)
      | .floatLit q => some (.vfloat q, s)
      | .strLit str => some (.vstr str, s)
      | .boolLit b => some (.vbool b, s)
      | .ident name =>
        -- AST_IDENTIFIER (interpreter.c:1678)
        match envGet fuel s.currentEnv name s with
        | none => none
        | some (some v, s1) => some (v, s1)
        | some (none, s1) =>
          some (.vnull, runtimeError s1 (name ++ " is unknown. Perhaps you intended to designate it first."))
      | .binary op l r =>
        match run fuel (.expr l) s with
        | none => none
        | some (lv, s1) =>
          match run fuel (.expr r) s1 with
          | none => none
          | some (rv, s2) => evalBinary op lv rv s2
      | .call name args =>
        -- eval_call (interpreter.c:1603)
        match envGet fuel s.currentEnv name s with
        | none => none
        | some (none, s1) =>
          some (.vnull, runtimeError s1 (name ++ " is unknown. Perhaps you intended to define it first."))
        | some (some fv, s1) =>
          match run fuel (.evalList args []) s1 with
          | some (.vlist argv, s2) =>
            match fv with
            | .vbuiltin bn => run fuel (.builtinCall bn argv) s2
            | .vfunc fn => run fuel (.callFunc fn .vnull argv) s2
            | _ => some (.vnull, runtimeError s2 (name ++ " is not callable."))
          | _ => none
      | .listLit elems => run fuel (.evalList elems []) s
      | .member obj mname =>
        -- AST_MEMBER (interpreter.c:1875)
        match run fuel (.expr obj) s with
        | none => none
        | some (ov, s1) =>
          match ov with
          | .vinstance iid =>
            let lookup : InterpState → Option (Value × InterpState) := fun sx =>
              match sx.insts[iid]? with
              | none => none
              | some inst =>
                match envGet fuel inst.fieldsEnv mname sx with
                | none => none
                | some (some fv, s2) =>
                  match copyVal fuel fv s2 with
                  | some (res, s3) => some (res, s3)
                  | none => none
                | some (none, s2) =>
                  match envGet fuel inst.methodsEnv mname s2 with
                  | none => none
                  | some (some mv, s3) =>
                    match copyVal fuel mv s3 with
                    | some (res, s4) => some (res, s4)
                    | none => none
                  | some (none, s3) =>
                    some (.vnull, runtimeError s3 ("Member " ++ mname ++ " not found on instance."))
            if isPrivateName mname then
              -- private access check: the bound `self` must be the identical
              -- instance (C compares the instance pointers; copies share the
              -- referent, so store ids model pointer identity)
              match envGet fuel s1.currentEnv "self" s1 with
              | none => none
              | some (selfOpt, s2) =>
                let ok := match selfOpt with
                          | some (.vinstance sid) => sid == iid
                          | _ => false
                if ok then lookup s2
                else some (.vnull, runtimeError s2 "Access to private member inhibited.")
            else lookup s1
          | _ => some (.vnull, runtimeError s1 "Only instances have members.")
      | .sliceE obj stE enE spE =>
        -- AST_SLICE (interpreter.c:2113)
        match run fuel (.expr obj) s with
        | none => none
        | some (ov, s1) =>
          match ov with
          | .vlist items =>
            let len : ℤ := items.length
            match (match stE with
                   | none => some ((0:ℤ), s1)
                   | some e => match run fuel (.expr e) s1 with
                               | none => none
                               | some (.vint n, s2) => some (n, s2)
                               | some (_, s2) => some ((0:ℤ), s2)) with
            | none => none
            | some (st0, sA) =>
              match (match enE with
                     | none => some (len, sA)
                     | some e => match run fuel (.expr e) sA with
                                 | none => none
                                 | some (.vint n, s2) => some (n, s2)
                                 | some (_, s2) => some (len, s2)) with
              | none => none
              | some (en0, sB) =>
                match (match spE with
                       | none => some ((1:ℤ), sB)
                       | some e => match run fuel (.expr e) sB with
                                   | none => none
                                   | some (.vint n, s2) => some (n, s2)
                                   | some (_, s2) => some ((1:ℤ), s2)) with
                | none => none
                | some (sp0, sC) =>
                  let (st1, en1) := sliceResolve len st0 en0
                  if sp0 = 0 then
                    some (.vnull, runtimeError sC "Slice step cannot be zero")
                  else
                    some (.vlist (sliceListCore items st1 en1 sp0), sC)
          | .vstr str =>
            let cs := str.data
            let len : ℤ := cs.length
            match (match stE with
                   | none => some ((0:ℤ), s1)
                   | some e => match run fuel (.expr e) s1 with
                               | none => none
                               | some (.vint n, s2) => some (n, s2)
                               | some (_, s2) => some ((0:ℤ), s2)) with
            | none => none
            | some (st0, sA) =>
              match (match enE with
                     | none => some (len, sA)
                     | some e => match run fuel (.expr e) sA with
                                 | none => none
                                 | some (.vint n, s2) => some (n, s2)
                                 | some (_, s2) => some (len, s2)) with
              | none => none
              | some (en0, sB) =>
                match (match spE with
                       | none => some ((1:ℤ), sB)
                       | some e => match run fuel (.expr e) sB with
                                   | none => none
                                   | some (.vint n, s2) => some (n, s2)
                                   | some (_, s2) => some ((1:ℤ), s2)) with
                | none => none
                | some (sp0, sC) =>
                  let (st1, en1) := sliceResolve len st0 en0
                  if sp0 = 0 then
                    some (.vnull, runtimeError sC "Slice step cannot be zero")
                  else
                    match sliceStrCore cs st1 en1 sp0 with
                    | some cs' => some (.vstr (String.mk cs'), sC)
                    | none => none
          | _ => some (.vnull, runtimeError s1 "Slice requires list or string")
    | .stmt st =>
      -- eval_stmt (interpreter.c:2448): early return when has_return is set
      if s.hasReturn then some (.vnull, s)
      else
        match st with
        | .designate name e =>
          match run fuel (.expr e) s with
          | none => none
          | some (v, s1) =>
            match copyVal fuel v s1 with
            | some (c, s2) => some (.vnull, envDefine s2 s2.currentEnv name c)
            | none => none
        | .assign name e =>
          match run fuel (.expr e) s with
          | none => none
          | some (v, s1) =>
            match copyVal fuel v s1 with
            | some (c, s2) => some (.vnull, envSet s2 s2.currentEnv name c)
            | none => none
        | .exprStmt e => run fuel (.expr e) s
        | .protocol name params isSeq body =>
          some (.vnull, envDefine s s.currentEnv name (.vfunc ⟨name, params, isSeq, body, s.currentEnv⟩))
        | .yieldS oe =>
          match oe with
          | some e =>
            match run fuel (.expr e) s with
            | none => none
            | some (v, s1) => some (.vnull, { s1 with retVal := v, hasReturn := true })
          | none => some (.vnull, { s with retVal := .vnull, hasReturn := true })
        | .breakS => some (.vnull, { s with hasBreak := true })
        | .continueS => some (.vnull, { s with hasContinue := true })
        | .cycleWhile nid cond body => run fuel (.whileLoop nid cond body) s
        | .cycleFromTo nid startE endE varName body =>
          -- resume check (interpreter.c:2662-2677)
          match (if s.isResuming then
                   match s.resumeStack with
                   | .cycleFromToF fnid cur env2 :: rest =>
                     if fnid == nid then
                       some (cur, env2, { s with resumeStack := rest, isResuming := !rest.isEmpty })
                     else none
                   | _ => none
                 else none) with
          | some (cur, env2, s0) => run fuel (.fromToLoop nid varName body cur env2) s0
          | none =>
            match run fuel (.expr startE) s with
            | none => none
            | some (sv, s1) =>
              match run fuel (.expr endE) s1 with
              | none => none
              | some (ev, s2) =>
                let cur := match sv with | .vint n => n | _ => 0
                let env2 := match ev with | .vint n => n | _ => 0
                run fuel (.fromToLoop nid varName body cur env2) s2
        | .situation scrut aligns =>
          match run fuel (.expr scrut) s with
          | none => none
          | some (v, s1) =>
            match run fuel (.alignsLoop v aligns) s1 with
            | none => none
            | some (m, s2) =>
              match m with
              | .vbool true => some (.vnull, s2)
              | _ => run fuel (.otherwiseLoop aligns) s2
    | .block b =>
      -- exec_block (interpreter.c:2401): consume a matching resume frame
      let (start, s0) :=
        if s.isResuming then
          match s.resumeStack with
          | .blockF fbid idx :: rest =>
            if fbid == b.bid then (idx, { s with resumeStack := rest, isResuming := !rest.isEmpty })
            else (0, s)
          | _ => (0, s)
        else (0, s)
      run fuel (.blockLoop b start) s0
    | .blockLoop b i =>
      match b.stmts[i]? with
      | none => some (.vnull, s)
      | some st =>
        let oldCount := genStackLen s
        match run fuel (.stmt st) s with
        | none => none
        | some (_, s1) =>
          if s1.hasReturn || s1.hasError || s1.hasBreak || s1.hasContinue then
            if s1.hasReturn && s1.currentGen.isSome && !s1.hasError then
              let childSusp := decide (oldCount < genStackLen s1)
              some (.vnull, genPushFrame s1 (.blockF b.bid (if childSusp then i else i+1)))
            else some (.vnull, s1)
          else run fuel (.blockLoop b (i+1)) s1
    | .evalList es acc =>
      match es with
      | [] => some (.vlist acc.reverse, s)
      | e :: rest =>
        match run fuel (.expr e) s with
        | none => none
        | some (v, s1) => run fuel (.evalList rest (v :: acc)) s1
    | .callFunc fn selfV args =>
      -- interpreter_call (interpreter.c:3069)
      let callEnvId := s.envs.length
      let callGlobal := match s.envs[fn.closure]? with
                        | some cn => cn.global
                        | none => callEnvId
      let oldEnv := s.currentEnv
      let s1 := { s with envs := s.envs ++ [⟨[], some fn.closure, callGlobal⟩],
                         currentEnv := callEnvId }
      match (match selfV with
             | .vnull => some s1
             | sv => match copyVal fuel sv s1 with
                     | some (c, sx) => some (envDefine sx callEnvId "self" c)
                     | none => none) with
      | none => none
      | some s2 =>
        match bindParams fuel fn.params args callEnvId s2 with
        | none => none
        | some s3 =>
          if fn.isSeq then
            match copyVal fuel selfV s3 with
            | some (svc, s4) =>
              let gid := s4.gens.length
              some (.vgen gid,
                { s4 with currentEnv := oldEnv,
                          gens := s4.gens ++ [⟨fn, callEnvId, svc, .suspended, [], .vnull, false, .vnull, false⟩] })
            | none => none
          else
            match run fuel (.block fn.body) s3 with
            | none => none
            | some (_, s4) =>
              if s4.hasReturn then
                some (s4.retVal, { s4 with retVal := .vnull, hasReturn := false, currentEnv := oldEnv })
              else
                some (.vnull, { s4 with currentEnv := oldEnv })
    | .builtinCall bn argv =>
      match bn with
      | "push" =>
        -- builtin_push (interpreter.c:1035): appends a copy of argv[1] to the
        -- temporary argv[0] and returns a copy of it; the caller's binding is
        -- never written back (eval_call frees argv afterwards)
        match argv with
        | (.vlist items) :: x :: _ =>
          match copyVal fuel x s with
          | some (xc, s1) =>
            match copyVal fuel (.vlist (items ++ [xc])) s1 with
            | some (res, s2) => some (res, s2)
            | none => none
          | none => none
        | _ => some (.vnull, s)
      | "proceed" =>
        -- builtin_proceed (interpreter.c:1246)
        match argv with
        | (.vgen gid) :: _ => run fuel (.genNext gid) s
        | _ => some (.vnull, s)
      | _ => none
    | .genNext gid =>
      -- interpreter_gen_next (interpreter.c:3169)
      match s.gens[gid]? with
      | none => none
      | some g =>
        if g.status = .done then some (.vnull, s)
        else
          let oldEnv := s.currentEnv
          let oldGen := s.currentGen
          let oldResuming := s.isResuming
          let oldStack := s.resumeStack
          let s1 := { s with
            resumeStack := g.stack.reverse,
            isResuming := !g.stack.isEmpty,
            currentGen := some gid,
            currentEnv := g.envId,
            gens := s.gens.set gid { g with stack := [] } }
          match run fuel (.block g.func.body) s1 with
          | none => none
          | some (_, s2) =>
            let setStatus : InterpState → GenStatus → InterpState := fun sx st =>
              match sx.gens[gid]? with
              | some g2 => { sx with gens := sx.gens.set gid { g2 with status := st } }
              | none => sx
            if s2.hasReturn then
              let s3 := setStatus { s2 with retVal := .vnull, hasReturn := false } .suspended
              some (s2.retVal, { s3 with currentEnv := oldEnv, currentGen := oldGen,
                                         isResuming := oldResuming, resumeStack := oldStack })
            else
              let s3 := setStatus s2 .done
              some (.vnull, { s3 with currentEnv := oldEnv, currentGen := oldGen,
                                      isResuming := oldResuming, resumeStack := oldStack })
    | .whileLoop nid cond body =>
      -- AST_CYCLE_WHILE (interpreter.c:2494)
      let (resuming, s0) :=
        if s.isResuming then
          match s.resumeStack with
          | .cycleWhileF fnid :: rest =>
            if fnid == nid then (true, { s with resumeStack := rest, isResuming := !rest.isEmpty })
            else (false, s)
          | _ => (false, s)
        else (false, s)
      match (if resuming then some (true, s0)
             else match run fuel (.expr cond) s0 with
                  | none => none
                  | some (cv, s1) => some (valueIsTruthy cv, s1)) with
      | none => none
      | some (go, s1) =>
        if !go then some (.vnull, s1)
        else
          match run fuel (.block body) s1 with
          | none => none
          | some (_, s2) =>
            if s2.hasContinue then
              run fuel (.whileLoop nid cond body) { s2 with hasContinue := false }
            else if s2.hasBreak then some (.vnull, { s2 with hasBreak := false })
            else if s2.hasReturn || s2.hasError then
              if s2.hasReturn && s2.currentGen.isSome && !s2.hasError then
                some (.vnull, genPushFrame s2 (.cycleWhileF nid))
              else some (.vnull, s2)
            else run fuel (.whileLoop nid cond body) s2
    | .fromToLoop nid varName body i endv =>
      -- the for loop of AST_CYCLE_FROM_TO (interpreter.c:2687-2714)
      if i < endv then
        let s0 := envDefine s s.currentEnv varName (.vint i)
        match run fuel (.block body) s0 with
        | none => none
        | some (_, s1) =>
          if s1.hasContinue then
            run fuel (.fromToLoop nid varName body (i+1) endv) { s1 with hasContinue := false }
          else if s1.hasBreak then some (.vnull, { s1 with hasBreak := false })
          else if s1.hasReturn || s1.hasError then
            if s1.hasReturn && s1.currentGen.isSome && !s1.hasError then
              some (.vnull, genPushFrame s1 (.cycleFromToF nid i endv))
            else some (.vnull, s1)
          else run fuel (.fromToLoop nid varName body (i+1) endv) s1
      else some (.vnull, s)
    | .alignsLoop v aligns =>
      -- first pass over the alignments (interpreter.c:2845-2865); the result
      -- `vbool true` stands for `matched`
      match aligns with
      | [] => some (.vbool false, s)
      | .mk isOth vals body :: rest =>
        if isOth then run fuel (.alignsLoop v rest) s
        else run fuel (.alignValsLoop v vals body rest) s
    | .alignValsLoop v vals body rest =>
      match vals with
      | [] => run fuel (.alignsLoop v rest) s
      | caseE :: more =>
        match run fuel (.expr caseE) s with
        | none => none
        | some (cv, s1) =>
          if valueEquals v cv then
            match run fuel (.block body) s1 with
            | none => none
            | some (_, s2) => some (.vbool true, s2)
          else run fuel (.alignValsLoop v more body rest) s1
    | .otherwiseLoop aligns =>
      -- second pass running the first `otherwise` arm (interpreter.c:2867-2876)
      match aligns with
      | [] => some (.vnull, s)
      | .mk isOth _ body :: rest =>
        if isOth then
          match run fuel (.block body) s with
          | none => none
          | some (_, s1) => some (.vnull, s1)
        else run fuel (.otherwiseLoop rest) s
    | .program stmts =>
      -- AST_PROGRAM (interpreter.c:3055): every statement runs, regardless of
      -- the error flag; the last statement's value is returned
      match stmts with
      | [] => some (.vnull, s)
      | st :: rest =>
        match run fuel (.stmt st) s with
        | none => none
        | some (v, s1) =>
          match rest with
          | [] => some (v, s1)
          | _ => run fuel (.program rest) s1

/-- interpreter_execute (interpreter.c:3231): clears the error/return flags
then evaluates the program node. -/
def interpreterExecute (fuel : Nat) (stmts : List Stmt) (s : InterpState) :
    Option (Value × InterpState) :=
  run fuel (.program stmts) { s with hasError := false, hasReturn := false }

/-- Exit code of `run_source_repl` (main.c:112):
`interpreter_has_error(interp) ? 1 : 0`. -/
def exitCode (s : InterpState) : Nat :=
  if s.hasError then 1 else 0

/-! ## Concrete programs

The fresh interpreter state after `interpreter_create`: a single global
environment holding the builtins the model dispatches on (`push` is
registered before `proceed`, interpreter.c:1396/1418; entries are listed
most-recent first). -/
def initState : InterpState :=
  { envs := [⟨[⟨"proceed", .vbuiltin "proceed", false⟩,
              ⟨"push", .vbuiltin "push", false⟩], none, 0⟩],
    gens := [], insts := [], globalEnv := 0, currentEnv := 0,
    currentGen := none, retVal := .vnull, hasReturn := false, hasBreak := false,
    hasContinue := false, hasError := false, errorMsg := "", isResuming := false,
    resumeStack := [] }

/-- Advance a generator `n` times collecting the produced values. -/
def advanceN : Nat → Nat → InterpState → List Value → Option (List Value × InterpState)
  | 0, _, s, acc => some (acc.reverse, s)
  | n+1, gid, s, acc =>
    match run 400 (.genNext gid) s with
    | some (v, s1) => advanceN n gid s1 (v :: acc)
    | none => none

/-! ### C1 — the `pairs()` scenario

```
sequence pairs():
  cycle from 0 to 2 as i:
    cycle from 0 to 2 as j: yield [i,j]
```
Block 0 is the function body (outermost), block 1 the outer loop's body,
block 2 the inner loop's body containing the yield; node labels 10/11 stand
for the outer/inner `cycle from/to` AST nodes. -/
def pairsBody : Block :=
  .mk 0 [ .cycleFromTo 10 (.intLit 0) (.intLit 2) "i" (.mk 1 [
            .cycleFromTo 11 (.intLit 0) (.intLit 2) "j" (.mk 2 [
              .yieldS (some (.listLit [.ident "i", .ident "j"])) ]) ]) ]

/-- Define `pairs`, then evaluate the call `pairs()` (as the iteration
driver `cycle through pairs() as p` does), producing a generator handle. -/
def pairsStart : Option (Value × InterpState) :=
  match run 100 (.program [.protocol "pairs" [] true pairsBody]) initState with
  | some (_, s) => run 100 (.expr (.call "pairs" [])) s
  | none => none

/-- The values produced by the first five advances of the pairs generator. -/
def pairsValues : Option (List Value) :=
  match pairsStart with
  | some (.vgen gid, s) => (advanceN 5 gid s []).map (·.1)
  | _ => none

/-- The generator's status after five advances. -/
def pairsStatusAfter5 : Option GenStatus :=
  match pairsStart with
  | some (.vgen gid, s) =>
    match advanceN 5 gid s [] with
    | some (_, s1) => (s1.gens[gid]?).map (·.status)
    | none => none
  | _ => none

/-- The saved frame stack after the first advance (head = first pushed =
bottom; last = top of the stack). -/
def pairsStackAfter1 : Option (List GenFrame) :=
  match pairsStart with
  | some (.vgen gid, s) =>
    match run 400 (.genNext gid) s with
    | some (_, s1) => (s1.gens[gid]?).map (·.stack)
    | none => none
  | _ => none

/-- C1 counterexample: after the first suspension of `pairs()` the frame on
top of the saved stack (the last-pushed, first-consumed one) is the
`GEN_FRAME_BLOCK` frame of the *outermost* block (the function body, block
id 0), not a frame of the innermost suspension point (the inner loop's body
holding the yield, block id 2); the innermost frame sits at the bottom.
This refutes the claim's assertion that the stack top represents the
innermost suspension point. -/
theorem c1_pairs_stack_top_counterexample :
    pairsStackAfter1.map (·.getLast?) = some (some (.blockF 0 0)) ∧
    pairsStackAfter1.map (·.head?) = some (some (.blockF 2 1)) ∧
    GenFrame.blockF 0 0 ≠ GenFrame.blockF 2 1 := by
  refine ⟨rfl, rfl, ?_⟩
  intro h
  injection h with h1 _
  exact absurd h1 (by decide)

/-- C1 (amended): iterating the generator produced by `pairs()` yields
exactly `[0,0]`, `[0,1]`, `[1,0]`, `[1,1]` in that order, after which the
generator is done and yields void; at every suspension the enclosing
constructs push resume frames innermost-first / outermost-last, so the top
of the saved stack is the outermost block's frame — the first consumed on
resumption — while the innermost suspension point's frame lies at the
bottom and is consumed last. -/
theorem c1_pairs_generator :
    pairsValues = some
      [.vlist [.vint 0, .vint 0], .vlist [.vint 0, .vint 1],
       .vlist [.vint 1, .vint 0], .vlist [.vint 1, .vint 1], .vnull] ∧
    pairsStatusAfter5 = some .done ∧
    pairsStackAfter1 = some
      [.blockF 2 1, .cycleFromToF 11 0 2, .blockF 1 0, .cycleFromToF 10 0 2,
       .blockF 0 0] :=
  ⟨rfl, rfl, rfl⟩

/-! ### C2 — the Fibonacci scenario

```
sequence fib(): designate a=0; designate b=1
  cycle while true: yield a; designate t=a+b; a=b; b=t
designate g = fib(); designate xs = []
cycle from 0 to 10 as _: push(xs, proceed(g))
declare xs
```
(The final `declare xs` only prints; the theorems inspect the binding.) -/
def fibBody : Block :=
  .mk 20 [ .designate "a" (.intLit 0),
           .designate "b" (.intLit 1),
           .cycleWhile 30 (.boolLit true) (.mk 21 [
             .yieldS (some (.ident "a")),
             .designate "t" (.binary .add (.ident "a") (.ident "b")),
             .assign "a" (.ident "b"),
             .assign "b" (.ident "t") ]) ]

def fibProgram : List Stmt :=
  [ .protocol "fib" [] true fibBody,
    .designate "g" (.call "fib" []),
    .designate "xs" (.listLit []),
    .cycleFromTo 40 (.intLit 0) (.intLit 10) "_" (.mk 22 [
      .exprStmt (.call "push" [.ident "xs", .call "proceed" [.ident "g"]]) ]) ]

def fibFinal : Option InterpState :=
  (run 3000 (.program fibProgram) initState).map (·.2)

/-- The binding of `xs` after the program ran. -/
def fibXs : Option (Option Value) :=
  match fibFinal with
  | some s => (envGet 50 s.currentEnv "xs" s).map (·.1)
  | none => none

/-- Status and saved-stack depth of the generator bound to `g` (store index
1: index 0 is the generator returned by `fib()`, index 1 the copy that
`designate` stored). -/
def fibGState : Option (GenStatus × Nat) :=
  match fibFinal with
  | some s => (s.gens[1]?).map (fun g => (g.status, g.stack.length))
  | none => none

/-- The interpreter state after the three setup statements. -/
def fibSetup : Option InterpState :=
  (run 500 (.program (fibProgram.take 3)) initState).map (·.2)

/-- Evaluate `proceed(g)` twice in a row after the setup. -/
def fibProceedTwice : Option (Value × Value) :=
  match fibSetup with
  | some s =>
    match run 400 (.expr (.call "proceed" [.ident "g"])) s with
    | some (v1, s1) =>
      match run 400 (.expr (.call "proceed" [.ident "g"])) s1 with
      | some (v2, _) => some (v1, v2)
      | none => none
    | none => none
  | none => none

/-! ### C5 — ordinary assignment depth -/

/-- C5 counterexample state: a three-level chain — global (env 0) binding
`x = 1`, an intermediate scope (env 1), and the current scope (env 2). -/
def c5S : InterpState :=
  { envs := [⟨[⟨"x", .vint 1, false⟩], none, 0⟩,
             ⟨[], some 0, 0⟩,
             ⟨[], some 1, 0⟩],
    gens := [], insts := [], globalEnv := 0, currentEnv := 2,
    currentGen := none, retVal := .vnull, hasReturn := false, hasBreak := false,
    hasContinue := false, hasError := false, errorMsg := "", isResuming := false,
    resumeStack := [] }

/-- C5 counterexample: with `x` bound only in the global scope two levels
up, the claim says `x = 99` mutates that binding; instead `env_set` (which
checks only the current scope and its immediate parent) defines a new
binding in the current scope and leaves the global binding at 1 — which a
sibling scope still sees. -/
theorem c5_env_set_counterexample :
    (envSet c5S 2 "x" (.vint 99)).envs[0]? = some ⟨[⟨"x", .vint 1, false⟩], none, 0⟩ ∧
    (envSet c5S 2 "x" (.vint 99)).envs[2]? = some ⟨[⟨"x", .vint 99, false⟩], some 1, 0⟩ ∧
    envLookup 10 (envSet c5S 2 "x" (.vint 99)) 1 "x" = some (some (.vint 1)) ∧
    Value.vint 1 ≠ Value.vint 99 := by
  refine ⟨rfl, rfl, rfl, ?_⟩
  intro h
  injection h with h1
  exact absurd h1 (by decide)

/-- C5 (amended): ordinary assignment mutates the binding in the current
scope when one exists, otherwise the binding in the immediate parent scope
when one exists there — `env_set` checks exactly one level of parents —
and otherwise defines a new binding in the current scope, even when a scope
further up the chain binds the name. -/
theorem c5_env_set_levels (s : InterpState) (envId : Nat) (node : EnvNode)
    (hn : s.envs[envId]? = some node) (name : String) (v : Value) :
    ((envFind node.entries name).isSome →
      envSet s envId name v =
        { s with envs := s.envs.set envId { node with entries := updateFirst node.entries name v } }) ∧
    (envFind node.entries name = none →
      ∀ pid, node.parent = some pid →
        ∀ pnode, s.envs[pid]? = some pnode →
          ((envFind pnode.entries name).isSome →
            envSet s envId name v =
              { s with envs := s.envs.set pid { pnode with entries := updateFirst pnode.entries name v } }) ∧
          (envFind pnode.entries name = none →
            envSet s envId name v = envDefine s envId name v)) := by
  constructor
  · intro hf
    simp [envSet, hn, hf]
  · intro hnone pid hp pnode hpn
    constructor
    · intro hpf
      simp [envSet, hn, hnone, hp, hpn, hpf]
    · intro hpnone
      simp [envSet, hn, hnone, hp, hpn, hpnone]

/-- Witness for C5 at the concrete three-level store: both hypotheses of the
define-locally case hold and the assignment indeed defines in the current
scope. -/
theorem c5_env_set_witness :
    envSet c5S 2 "x" (.vint 99) = envDefine c5S 2 "x" (.vint 99) := by
  have h := (c5_env_set_levels c5S 2 ⟨[], some 1, 0⟩ rfl "x" (.vint 99)).2 rfl 1 rfl
    ⟨[], some 0, 0⟩ rfl
  exact h.2 rfl

/-! ### C8 — override -/

/-- A chain from `eid` that reaches the scope `G` with no binding of `name`
in any scope strictly before `G`. -/
def cleanChain (s : InterpState) (name : String) (G : Nat) : Nat → Nat → Prop
  | 0, _ => False
  | fuel+1, eid =>
    eid = G ∨
    (∃ node, s.envs[eid]? = some node ∧ envFind node.entries name = none ∧
      ∃ pid, node.parent = some pid ∧ cleanChain s name G fuel pid)

theorem envFind_updateFirstOverride (es : List EnvEntry) (name : String) (v : Value)
    (h : (envFind es name).isSome) :
    ∃ nm b, envFind (updateFirstOverride es name v) name = some ⟨nm, v, b⟩ := by
  induction es with
  | nil => simp [envFind] at h
  | cons e rest ih =>
    by_cases he : e.name == name
    · refine ⟨e.name, true, ?_⟩
      simp [updateFirstOverride, he, envFind, List.find?]
    · have h' : (envFind rest name).isSome := by
        simpa [envFind, List.find?, he] using h
      obtain ⟨nm, b, hf⟩ := ih h'
      refine ⟨nm, b, ?_⟩
      simpa [updateFirstOverride, he, envFind, List.find?] using hf

/-- C8 counterexample state: global (env 0) and a child scope (env 1) that
already binds `g = 7`. -/
def c8S : InterpState :=
  { envs := [⟨[], none, 0⟩, ⟨[⟨"g", .vint 7, false⟩], some 0, 0⟩],
    gens := [], insts := [], globalEnv := 0, currentEnv := 1,
    currentGen := none, retVal := .vnull, hasReturn := false, hasBreak := false,
    hasContinue := false, hasError := false, errorMsg := "", isResuming := false,
    resumeStack := [] }

/-- C8 counterexample: after `override g = 5` (executed from the child
scope), evaluating `g` in the child scope still yields the shadowing local
value 7, not 5 — refuting "g in any scope whatsoever yields v".  The global
scope itself does resolve to 5. -/
theorem c8_override_counterexample :
    envLookup 10 (envForceSet c8S 1 "g" (.vint 5)) 1 "g" = some (some (.vint 7)) ∧
    envGet 10 1 "g" (envForceSet c8S 1 "g" (.vint 5))
      = some (some (.vint 7), envForceSet c8S 1 "g" (.vint 5)) ∧
    envLookup 10 (envForceSet c8S 1 "g" (.vint 5)) 0 "g" = some (some (.vint 5)) ∧
    Value.vint 7 ≠ Value.vint 5 := by
  refine ⟨rfl, rfl, rfl, ?_⟩
  intro h
  injection h with h1
  exact absurd h1 (by decide)

/-- C8 (amended): after `override g = v`, evaluating `g` yields `v` in
every scope whose parent chain reaches the global scope without an
intermediate binding of `g`; a scope that shadows `g` (or sits below one
that does) still sees the shadowing binding. -/
theorem c8_override_resolves (s : InterpState) (eSet : Nat) (name : String) (v : Value)
    (n0 : EnvNode) (h0 : s.envs[eSet]? = some n0)
    (gnode : EnvNode) (hGn : s.envs[n0.global]? = some gnode) :
    ∀ fuel eid, cleanChain (envForceSet s eSet name v) name n0.global fuel eid →
      envLookup fuel (envForceSet s eSet name v) eid name = some (some v) := by
  have hGlen : n0.global < s.envs.length := by
    by_contra hc
    push_neg at hc
    rw [List.getElem?_eq_none hc] at hGn
    exact Option.noConfusion hGn
  obtain ⟨gE, hsEq, nm, b, hfind⟩ :
      ∃ gE, envForceSet s eSet name v = { s with envs := s.envs.set n0.global gE } ∧
        ∃ nm b, envFind gE.entries name = some ⟨nm, v, b⟩ := by
    by_cases hf : (envFind gnode.entries name).isSome
    · refine ⟨{ gnode with entries := updateFirstOverride gnode.entries name v }, ?_, ?_⟩
      · simp [envForceSet, h0, hGn, hf]
      · exact envFind_updateFirstOverride gnode.entries name v hf
    · refine ⟨{ gnode with entries := ⟨name, v, false⟩ :: gnode.entries }, ?_, name, false, ?_⟩
      · simp [envForceSet, h0, hGn, hf]
      · simp [envFind, List.find?]
  have hgetG : (envForceSet s eSet name v).envs[n0.global]? = some gE := by
    rw [hsEq]
    exact List.getElem?_set_self (by simpa using hGlen)
  intro fuel
  induction fuel with
  | zero => intro eid h; exact absurd h (by simp [cleanChain])
  | succ fuel ih =>
    intro eid h
    rcases h with hG | ⟨node, hnode, hfindn, pid, hp, hchain⟩
    · subst hG
      unfold envLookup
      simp only [hgetG, hfind]
    · unfold envLookup
      simp only [hnode, hfindn, hp]
      exact ih pid hchain

/-- Witness for C8: override from the child scope of a two-level store, then
resolve from a fresh grandchild scope whose chain is clean — the lookup
yields the overridden value 5. -/
def c8S2 : InterpState :=
  { envs := [⟨[], none, 0⟩, ⟨[⟨"g", .vint 7, false⟩], some 0, 0⟩, ⟨[], some 0, 0⟩],
    gens := [], insts := [], globalEnv := 0, currentEnv := 1,
    currentGen := none, retVal := .vnull, hasReturn := false, hasBreak := false,
    hasContinue := false, hasError := false, errorMsg := "", isResuming := false,
    resumeStack := [] }

theorem c8_override_witness :
    envLookup 2 (envForceSet c8S2 1 "g" (.vint 5)) 2 "g" = some (some (.vint 5)) := by
  have h := c8_override_resolves c8S2 1 "g" (.vint 5) ⟨[⟨"g", .vint 7, false⟩], some 0, 0⟩
    rfl ⟨[], none, 0⟩ rfl 2 2
  apply h
  exact Or.inr ⟨⟨[], some 0, 0⟩, rfl, rfl, 0, rfl, Or.inl rfl⟩

/-- C2: running the Fibonacci scenario leaves `xs` bound to the *empty*
list, not `[0, 1, 1, 2, 3, 5, 8, 13, 21, 34]`: `env_get` returns a deep
copy of the looked-up value, so `push(xs, …)` appends to a temporary that
`eval_call` frees, and `proceed(g)` advances a deep copy of the stored
generator — which stays suspended with an empty frame stack, and every
`proceed(g)` returns the first Fibonacci number 0. -/
theorem c2_fib_push_proceed :
    fibXs = some (some (.vlist [])) ∧
    fibGState = some (.suspended, 0) ∧
    fibProceedTwice = some (.vint 0, .vint 0) :=
  ⟨rfl, rfl, rfl⟩

/-! ### C3 — `interpreter_gen_next` invariants -/

/-- C3: `interpreter_gen_next` on a generator whose status is done returns
void with the interpreter state untouched; on a non-done generator whose
body run terminates, the generator's new status is suspended exactly when
the body set the return (yield) signal — and then the yielded value is
returned — otherwise the status becomes done and void is returned; the
saved current-env, current-gen and resume fields are restored either way. -/
theorem c3_gen_next (fuel gid : Nat) (s : InterpState) (g : GenState)
    (hg : s.gens[gid]? = some g) :
    (g.status = .done → run (fuel+1) (.genNext gid) s = some (.vnull, s)) ∧
    (g.status ≠ .done →
      ∀ v2 s2 g2,
        run fuel (.block g.func.body)
          { s with resumeStack := g.stack.reverse,
                   isResuming := !g.stack.isEmpty,
                   currentGen := some gid,
                   currentEnv := g.envId,
                   gens := s.gens.set gid { g with stack := [] } } = some (v2, s2) →
        s2.gens[gid]? = some g2 →
        run (fuel+1) (.genNext gid) s =
          some ((if s2.hasReturn then s2.retVal else .vnull),
            { s2 with
                gens := s2.gens.set gid
                  { g2 with status := if s2.hasReturn then .suspended else .done },
                retVal := if s2.hasReturn then .vnull else s2.retVal,
                hasReturn := false,
                currentEnv := s.currentEnv, currentGen := s.currentGen,
                isResuming := s.isResuming, resumeStack := s.resumeStack })) := by
  constructor
  · intro hdone
    simp only [run, hg]
    rw [if_pos hdone]
  · intro hnd v2 s2 g2 hbody hg2
    simp only [run, hg]
    rw [if_neg hnd]
    simp only [hbody, hg2]
    by_cases hr : s2.hasReturn <;> simp [hr]

/-- The interpreter state after the five advances of the pairs generator
(the generator, store index 0, is done there). -/
def pairsDoneState : InterpState :=
  match pairsStart with
  | some (.vgen gid, s) =>
    match advanceN 5 gid s [] with
    | some (_, s1) => s1
    | none => initState
  | _ => initState

/-- The pairs generator as stored in `pairsDoneState`. -/
def pairsDoneGen : GenState :=
  match pairsDoneState.gens[0]? with
  | some g => g
  | none => ⟨⟨"", [], true, .mk 0 [], 0⟩, 0, .vnull, .done, [], .vnull, false, .vnull, false⟩

/-- C3 witness: advancing the exhausted pairs generator once more returns
void and leaves the state unchanged. -/
theorem c3_gen_next_witness :
    run 400 (.genNext 0) pairsDoneState = some (.vnull, pairsDoneState) :=
  (c3_gen_next 399 0 pairsDoneState pairsDoneGen rfl).1 rfl

/-! ### C4 — uncaught errors at the top level -/

/-- C4 (amended): an uncaught runtime error in a top-level statement does
**not** stop the program: the `AST_PROGRAM` loop continues with exactly the
remaining top-level statements from the erroneous state (the flag only
skips nothing — `eval_stmt` checks `has_return`, never `has_error`), and
the process exit status derived from that state is failure (1). -/
theorem c4_program_continues (st r0 : Stmt) (rest : List Stmt) (fuel : Nat)
    (s : InterpState) (v : Value) (s1 : InterpState)
    (h : run fuel (.stmt st) s = some (v, s1)) (herr : s1.hasError = true) :
    run (fuel+1) (.program (st :: r0 :: rest)) s
      = run fuel (.program (r0 :: rest)) s1 ∧
    exitCode s1 = 1 := by
  constructor
  · simp only [run, h]
  · simp [exitCode, herr]

/-- The statement `1 // 0` whose evaluation raises DivisionByZero. -/
def c4ErrStmt : Stmt := .exprStmt (.binary .intdiv (.intLit 1) (.intLit 0))

/-- The interpreter state right after the failed statement. -/
def c4ErrState : InterpState :=
  match run 9 (.stmt c4ErrStmt) initState with
  | some (_, sx) => sx
  | none => initState

/-- C4 witness: after `1 // 0` errors, the program loop proceeds to the
next top-level statement from the error state, whose exit code is 1. -/
theorem c4_program_continues_witness :
    run 10 (.program [c4ErrStmt, .designate "y" (.intLit 42)]) initState
      = run 9 (.program [.designate "y" (.intLit 42)]) c4ErrState ∧
    exitCode c4ErrState = 1 :=
  c4_program_continues c4ErrStmt (.designate "y" (.intLit 42)) [] 9 initState
    .vnull c4ErrState rfl rfl

/-- The two-statement program `1 // 0` then `designate y = 42`. -/
def c4Prog : List Stmt := [c4ErrStmt, .designate "y" (.intLit 42)]

/-- Its final state. -/
def c4FinalS : InterpState :=
  match interpreterExecute 20 c4Prog initState with
  | some (_, sx) => sx
  | none => initState

/-- C4 counterexample: in the program `1 // 0; designate y = 42` the
division raises an uncaught error, yet the following top-level statement
still executes — the final state binds `y` to 42 — while the exit status
is failure (1).  This refutes the claim that subsequent top-level
statements do not execute. -/
theorem c4_abort_counterexample :
    interpreterExecute 20 c4Prog initState = some (.vnull, c4FinalS) ∧
    c4FinalS.hasError = true ∧
    exitCode c4FinalS = 1 ∧
    (match c4FinalS.envs[0]? with
     | some n => (envFind n.entries "y").map (fun e => e.value)
     | none => none) = some (.vint 42) :=
  ⟨rfl, rfl, rfl, rfl⟩

/-! ### C9 — private member access -/

/-- C9: evaluating `obj.m` where `m` begins with `_` and `obj` evaluates to
an instance: after looking up the bound `self`, the access fails with the
PrivateAccess error exactly when `self` is not the identical instance as
the receiver (identity of the C instance pointers, modeled by the store
id); when `self` is bound to the receiver itself the access proceeds and
returns (a copy of) the field's value. -/
theorem c9_private_member (fuel : Nat) (obj : Expr) (mname : String)
    (s s1 s2 : InterpState) (iid : Nat) (selfOpt : Option Value)
    (hm : isPrivateName mname = true)
    (hobj : run fuel (.expr obj) s = some (.vinstance iid, s1))
    (hself : envGet fuel s1.currentEnv "self" s1 = some (selfOpt, s2)) :
    ((∀ sid, selfOpt = some (.vinstance sid) → (sid == iid) = false) →
      run (fuel+1) (.expr (.member obj mname)) s
        = some (.vnull, runtimeError s2 "Access to private member inhibited.")) ∧
    (selfOpt = some (.vinstance iid) →
      ∀ inst fv s3 res s4,
        s2.insts[iid]? = some inst →
        envGet fuel inst.fieldsEnv mname s2 = some (some fv, s3) →
        copyVal fuel fv s3 = some (res, s4) →
        run (fuel+1) (.expr (.member obj mname)) s = some (res, s4)) := by
  constructor
  · intro hok
    simp only [run, hobj, hm, hself]
    cases selfOpt with
    | none => simp
    | some v =>
      cases v
      case vinstance sid => simp [hok sid rfl]
      all_goals simp
  · intro hs inst fv s3 res s4 hinst hfield hcopy
    subst hs
    simp only [run, hobj, hm, hself, hinst, hfield, hcopy]
    simp

/-- A state with one instance (store id 0): its field environment (env 1)
binds `_x` to 5, its method environment is env 2; the global scope binds
`o` and `self` to that instance. -/
def c9S : InterpState :=
  { envs := [⟨[⟨"self", .vinstance 0, false⟩, ⟨"o", .vinstance 0, false⟩], none, 0⟩,
             ⟨[⟨"_x", .vint 5, false⟩], none, 1⟩,
             ⟨[], none, 2⟩],
    gens := [], insts := [⟨1, 2⟩], globalEnv := 0, currentEnv := 0,
    currentGen := none, retVal := .vnull, hasReturn := false, hasBreak := false,
    hasContinue := false, hasError := false, errorMsg := "", isResuming := false,
    resumeStack := [] }

/-- C9 witness: with `self` bound to the receiver, `o._x` yields 5. -/
theorem c9_private_member_witness :
    run 6 (.expr (.member (.ident "o") "_x")) c9S = some (.vint 5, c9S) :=
  (c9_private_member 5 (.ident "o") "_x" c9S c9S c9S 0 (some (.vinstance 0))
      rfl rfl rfl).2 rfl ⟨1, 2⟩ (.vint 5) c9S (.vint 5) c9S rfl rfl rfl

/-! ### C10 — `==` versus the situation/alignment match -/

/-- The C `ValueType` tag of a value (interpreter.h:19). -/
def vtag : Value → Nat
  | .vnull => 0
  | .vbool _ => 1
  | .vint _ => 2
  | .vfloat _ => 3
  | .vstr _ => 4
  | .vlist _ => 5
  | .vfunc _ => 7
  | .vbuiltin _ => 8
  | .vinstance _ => 9
  | .vgen _ => 11

/-- Alignment body assigning `m = 1` (runs when the int-1 case matches). -/
def c10BlockA : Block := .mk 60 [.assign "m" (.intLit 1)]

/-- Otherwise body assigning `m = 2`. -/
def c10BlockB : Block := .mk 61 [.assign "m" (.intLit 2)]

/-- `designate m = 0; situation 1.0: { align 1: m = 1 | otherwise: m = 2 }` -/
def c10Prog : List Stmt :=
  [ .designate "m" (.intLit 0),
    .situation (.floatLit 1) [.mk false [.intLit 1] c10BlockA,
                              .mk true [] c10BlockB] ]

/-- The final binding of `m` after running `c10Prog`. -/
def c10FinalM : Option Value :=
  match interpreterExecute 30 c10Prog initState with
  | some (_, sx) =>
    match sx.envs[0]? with
    | some n => (envFind n.entries "m").map (fun e => e.value)
    | none => none
  | none => none

/-- C10: `value_equals` (used by situation/alignment matching) returns
false whenever the two type tags differ, while the `==` of `eval_binary`
promotes numerics — so `1 == 1.0` evaluates to true, yet a situation on
the float `1.0` does not match an alignment listing the integer `1` and
falls to the otherwise arm (`m` ends at 2). -/
theorem c10_eq_vs_situation :
    (∀ a b : Value, vtag a ≠ vtag b → valueEquals a b = false) ∧
    (∀ s : InterpState, evalBinary .eq (.vint 1) (.vfloat 1) s
        = some (.vbool true, s)) ∧
    c10FinalM = some (.vint 2) := by
  refine ⟨?_, fun s => rfl, rfl⟩
  intro a b h
  cases a <;> cases b <;> first | rfl | exact absurd rfl h

/-- C10 witness: the two relations disagree at the pair (1, 1.0). -/
theorem c10_eq_vs_situation_witness :
    valueEquals (.vint 1) (.vfloat 1) = false ∧
    evalBinary .eq (.vint 1) (.vfloat 1) initState
      = some (.vbool true, initState) :=
  ⟨c10_eq_vs_situation.1 (.vint 1) (.vfloat 1) (by decide),
   c10_eq_vs_situation.2.1 initState⟩

/-! ### C7 — slice semantics -/

/-- The claim's list slicing: negative bounds are resolved by adding the
length, **both** bounds are then clamped to `[0, len]`; step 0 is
InvalidSlice (`none`); a positive step takes elements from `start` upward
while the index is below `end`; a negative step starts at
`min(start, len) − 1` and proceeds downward while the index exceeds
`end`. -/
def sliceListClaimSpec (items : List Value) (st0 en0 step : ℤ) : Option (List Value) :=
  let len : ℤ := items.length
  let st1 := if st0 < 0 then st0 + len else st0
  let en1 := if en0 < 0 then en0 + len else en0
  let st := max 0 (min len st1)
  let en := max 0 (min len en1)
  if step = 0 then none
  else if step > 0 then some (slicePosLoop ((en - st).toNat + 1) items st en step)
  else
    let i0 := min st len - 1
    some (sliceNegLoop ((i0 - en).toNat + 1) items len i0 en step)

/-- C7 counterexample: `[10, 20, 30][3:-7:-1]`.  The resolved end is
`-7 + 3 = -4`, which the C code does **not** clamp up to 0; the downward
loop therefore runs to index 0 and the program produces `[30, 20, 10]`,
while the claim's clamping (end = 0) stops it after `[30, 20]`. -/
theorem c7_slice_counterexample :
    run 8 (.expr (.sliceE (.listLit [.intLit 10, .intLit 20, .intLit 30])
        (some (.intLit 3)) (some (.intLit (-7))) (some (.intLit (-1))))) initState
      = some (.vlist [.vint 30, .vint 20, .vint 10], initState) ∧
    sliceListClaimSpec [.vint 10, .vint 20, .vint 30] 3 (-7) (-1)
      = some [.vint 30, .vint 20] ∧
    Value.vlist [.vint 30, .vint 20, .vint 10] ≠ .vlist [.vint 30, .vint 20] := by
  refine ⟨rfl, rfl, ?_⟩
  intro h
  injection h with h1
  simp at h1

/-- C7 (amended): bound resolution clamps `start` to `[0, len]` but `end`
only from above (`min len`), with no lower clamp; under the extra
assumption that the resolved end is nonnegative — where the missing clamp
is irrelevant — the code's list slicing agrees with the claim's; and the
string loop always walks upward, so a negative-step string slice is empty
unless `start < min(end, len)`, where the C loop underruns the buffer
(undefined, `none`). -/
theorem c7_slice_resolution (items : List Value) (st0 en0 step : ℤ)
    (hen : 0 ≤ (if en0 < 0 then en0 + (items.length : ℤ) else en0))
    (hstep : step ≠ 0) :
    (∀ len : ℤ, sliceResolve len st0 en0 =
      (min len (max 0 (if st0 < 0 then len + st0 else st0)),
       min len (if en0 < 0 then len + en0 else en0))) ∧
    some (sliceListCore items (sliceResolve (items.length : ℤ) st0 en0).1
            (sliceResolve (items.length : ℤ) st0 en0).2 step)
      = sliceListClaimSpec items st0 en0 step ∧
    (∀ (cs : List Char) (st en sp : ℤ),
      sliceStrCore cs st en sp = none ↔
        sp < 0 ∧ st < en ∧ st < (cs.length : ℤ)) := by
  have hres : ∀ len : ℤ, sliceResolve len st0 en0 =
      (min len (max 0 (if st0 < 0 then len + st0 else st0)),
       min len (if en0 < 0 then len + en0 else en0)) := by
    intro len
    simp only [sliceResolve]
    split_ifs <;> simp_all <;> omega
  refine ⟨hres, ?_, ?_⟩
  · have hlen0 : (0:ℤ) ≤ (items.length : ℤ) := Int.natCast_nonneg _
    rw [hres]
    simp only [sliceListClaimSpec, sliceListCore]
    rw [if_neg hstep]
    have hcomm : (if st0 < 0 then st0 + (items.length:ℤ) else st0)
        = (if st0 < 0 then (items.length:ℤ) + st0 else st0) := by
      split_ifs <;> ring
    have hcommE : (if en0 < 0 then en0 + (items.length:ℤ) else en0)
        = (if en0 < 0 then (items.length:ℤ) + en0 else en0) := by
      split_ifs <;> ring
    rw [hcommE] at hen
    rw [hcomm, hcommE]
    set L := (items.length : ℤ) with hL
    set A := if st0 < 0 then L + st0 else st0 with hA
    set B := if en0 < 0 then L + en0 else en0 with hB
    have h1 : 0 ⊔ L ⊓ A = L ⊓ (0 ⊔ A) := by omega
    have h2 : 0 ⊔ L ⊓ B = L ⊓ B := by omega
    rw [h1, h2]
    by_cases hpos : step > 0
    · rw [if_pos hpos]
      rw [if_pos hpos]
    · rw [if_neg hpos]
      rw [if_neg hpos]
      have h3 : (L ⊓ (0 ⊔ A)) ⊓ L = L ⊓ (0 ⊔ A) := by omega
      rw [h3]
      by_cases hlt : L ⊓ B < L ⊓ (0 ⊔ A)
      · rw [if_pos hlt]
      · rw [if_neg hlt]
        have hg1 : ¬ (L ⊓ (0 ⊔ A) > L ⊓ B) := by omega
        have hg2 : ¬ (L ⊓ (0 ⊔ A) - 1 > L ⊓ B) := by omega
        congr 1
        conv_lhs => rw [sliceNegLoop.eq_def]
        conv_rhs => rw [sliceNegLoop.eq_def]
        simp only [if_neg hg1, if_neg hg2]
  · intro cs st en sp
    simp only [sliceStrCore]
    split_ifs with h
    · simp [h]
    · simp only [not_and_or, not_lt] at h
      constructor
      · intro hx; exact absurd hx (by simp)
      · intro hx
        rcases h with h | h | h <;> omega

/-- C7 witness: `[10, 20, 30][-2:3:1]` — the resolved bounds are in range,
and the code agrees with the claim's slicing there. -/
theorem c7_slice_resolution_witness :
    (∀ len : ℤ, sliceResolve len (-2) 3 =
      (min len (max 0 (if (-2:ℤ) < 0 then len + (-2) else (-2))),
       min len (if (3:ℤ) < 0 then len + 3 else 3))) ∧
    some (sliceListCore [.vint 10, .vint 20, .vint 30]
            (sliceResolve (([Value.vint 10, .vint 20, .vint 30].length : ℤ)) (-2) 3).1
            (sliceResolve (([Value.vint 10, .vint 20, .vint 30].length : ℤ)) (-2) 3).2 1)
      = sliceListClaimSpec [.vint 10, .vint 20, .vint 30] (-2) 3 1 ∧
    (∀ (cs : List Char) (st en sp : ℤ),
      sliceStrCore cs st en sp = none ↔
        sp < 0 ∧ st < en ∧ st < (cs.length : ℤ)) :=
  c7_slice_resolution [.vint 10, .vint 20, .vint 30] (-2) 3 1
    (by norm_num) (by norm_num)

end Keikaku
